import Mathlib

/-!
# Verification of the `cvr` debayering / color-conversion library

Shallow embedding of the Rust sources (`src/debayer.rs`, `src/convert.rs`)
and proofs about the embedded definitions.

`f32` values are modelled as exact rational numbers together with an
explicit round-to-nearest-even function `rnd32` applied after every
arithmetic operation, exactly where the Rust code performs an `f32`
operation.  Rationals are represented by the executable pair type `Q`
below (numerator over positive denominator, no implicit normalization),
so that every computation in this file reduces by evaluation; `Q.toRat`
maps into Mathlib's `ℚ`.  8-bit samples are modelled as natural numbers.
-/

namespace Cvr

/-- An executable rational: numerator `n` over denominator `d`.
Every constructor and operation in this file keeps `d` positive. -/
structure Q where
  n : ℤ
  d : ℤ
deriving Repr, DecidableEq

namespace Q

/-- Embed an integer. -/
def ofInt (k : ℤ) : Q := ⟨k, 1⟩

/-- Embed a natural number. -/
def ofNat (k : ℕ) : Q := ⟨(k : ℤ), 1⟩

/-- Exact addition. -/
def add (a b : Q) : Q := ⟨a.n * b.d + b.n * a.d, a.d * b.d⟩

/-- Exact subtraction. -/
def sub (a b : Q) : Q := ⟨a.n * b.d - b.n * a.d, a.d * b.d⟩

/-- Exact multiplication. -/
def mul (a b : Q) : Q := ⟨a.n * b.n, a.d * b.d⟩

/-- Exact negation. -/
def neg (a : Q) : Q := ⟨-a.n, a.d⟩

/-- Comparison `a ≤ b` as a Boolean (valid for positive denominators). -/
def ble (a b : Q) : Bool := a.n * b.d ≤ b.n * a.d

/-- Comparison `a < b` as a Boolean (valid for positive denominators). -/
def blt (a b : Q) : Bool := a.n * b.d < b.n * a.d

/-- Value equality as a Boolean (valid for positive denominators). -/
def beq (a b : Q) : Bool := a.n * b.d = b.n * a.d

/-- The value of a `Q` as a Mathlib rational. -/
def toRat (a : Q) : ℚ := (a.n : ℚ) / (a.d : ℚ)

/-- The dyadic rational `2^e`. -/
def pow2 (e : ℤ) : Q := if 0 ≤ e then ⟨2 ^ e.toNat, 1⟩ else ⟨1, 2 ^ (-e).toNat⟩

/-- Floor of a `Q` with positive denominator. -/
def floor (a : Q) : ℤ := Int.fdiv a.n a.d

end Q

/-! ## A model of IEEE-754 binary32 rounding

`rnd32 q` rounds `q` to the nearest binary32 value (round-to-nearest,
ties-to-even), covering normal and subnormal magnitudes, and returns it
in a canonical representation (odd mantissa times a power of two).  No
quantity in this development comes anywhere near the overflow threshold
`2^128`, so overflow is not modelled. -/

/-- Number of binary digits of a natural number, with explicit fuel
(`bitlen fuel n` is exact whenever `n < 2 ^ fuel`). -/
def bitlen : ℕ → ℕ → ℕ
  | 0, _ => 0
  | _ + 1, 0 => 0
  | fuel + 1, n => bitlen fuel (n / 2) + 1

/-- Fuel sufficient for every number appearing in this development. -/
def bitFuel : ℕ := 1200

/-- Round a positive-denominator rational to the nearest integer,
ties to even. -/
def roundNE (a : Q) : ℤ :=
  let f : ℤ := a.floor
  let r2 : ℤ := 2 * (a.n - f * a.d)
  if r2 < a.d then f
  else if a.d < r2 then f + 1
  else if f % 2 = 0 then f else f + 1

/-- Floor of the base-2 logarithm of a positive `Q`. -/
def flog2 (a : Q) : ℤ :=
  let e0 : ℤ := (bitlen bitFuel a.n.natAbs : ℤ) - (bitlen bitFuel a.d.natAbs : ℤ)
  if (Q.pow2 e0).ble a then e0 else e0 - 1

/-- Strip factors of two out of the mantissa into the exponent, producing
the canonical (odd-mantissa) form. -/
def canon : ℕ → ℤ → ℤ → ℤ × ℤ
  | 0, m, e => (m, e)
  | fuel + 1, m, e => if m ≠ 0 ∧ m % 2 = 0 then canon fuel (m / 2) (e + 1) else (m, e)

/-- Build the `Q` representing `m * 2^e` (with `m` the signed mantissa). -/
def ofDyadic (m : ℤ) (e : ℤ) : Q :=
  if 0 ≤ e then ⟨m * 2 ^ e.toNat, 1⟩ else ⟨m, 2 ^ (-e).toNat⟩

/-- Round a rational to the nearest binary32 value (ties to even). -/
def rnd32 (a : Q) : Q :=
  if a.n = 0 then ⟨0, 1⟩
  else
    let s : ℤ := if a.n < 0 then -1 else 1
    let abs : Q := ⟨|a.n|, a.d⟩
    let e : ℤ := flog2 abs
    let scale : ℤ := if e - 23 < -149 then -149 else e - 23
    let m : ℤ := roundNE (abs.mul (Q.pow2 (-scale)))
    let me : ℤ × ℤ := canon 64 m scale
    ofDyadic (s * me.1) me.2

/-- `f32` addition: exact rational addition followed by binary32 rounding. -/
def fadd (x y : Q) : Q := rnd32 (x.add y)

/-- `f32` subtraction. -/
def fsub (x y : Q) : Q := rnd32 (x.sub y)

/-- `f32` multiplication. -/
def fmul (x y : Q) : Q := rnd32 (x.mul y)

/-- `f32` division (division by zero never occurs at the call sites). -/
def fdiv (x y : Q) : Q :=
  if y.n = 0 then ⟨0, 1⟩
  else if y.n < 0 then rnd32 ⟨-(x.n * y.d), x.d * (-y.n)⟩
  else rnd32 ⟨x.n * y.d, x.d * y.n⟩

/-- The compile-time constant `NORM: f32 = 1.0 / (u8::MAX as f32)`
from `debayer::iter::get` and `demosaic_rg8`. -/
def norm8 : Q := rnd32 ⟨1, 255⟩

/-- The `f32` literal `0.25`. -/
def q025 : Q := ⟨1, 4⟩

/-- The `f32` literal `0.5`. -/
def q05 : Q := ⟨1, 2⟩

/-! ## The lazy debayering iterator `debayer::iter::DebayerRG8`

The mosaic buffer is a `List ℕ` of 8-bit samples.  `get` (the unchecked
normalizing read) becomes `getQ`; an out-of-range read (undefined
behavior in the source) reads the default `0`, and we prove separately
that no reachable read is out of range. -/

/-- `debayer::iter::get`: read sample `idx` and normalize,
`f32::from(*s.get_unchecked(idx)) * NORM`. -/
def getQ (data : List ℕ) (idx : ℕ) : Q := fmul (Q.ofNat (data.getD idx 0)) norm8

/-- The previous/current/next index resolution with border mirroring
performed by `DebayerRG8::next` on each axis.  `none` models the
`core::unreachable!()` branch. -/
def mirror (size idx : ℕ) : Option (ℕ × ℕ × ℕ) :=
  if idx = 0 then some (1, 0, 1)
  else if 1 ≤ idx ∧ idx < size - 1 then some (idx - 1, idx, idx + 1)
  else if idx = size - 1 then some (size - 2, size - 1, size - 2)
  else none

/-- The pixel value computed in the body of `DebayerRG8::next`, given the
resolved row triple `(pr, cr, nr)` and column triple `(pc, cc, nc)`.
The operand order and association of every `f32` operation follows the
source expression. -/
def pixelAt (d : List ℕ) (cols pr cr nr pc cc nc : ℕ) : Q × Q × Q :=
  if cr % 2 = 0 then
    if cc % 2 = 0 then
      ( getQ d (cr * cols + cc),
        fmul q025 (fadd (fadd (fadd (getQ d (cr * cols + pc)) (getQ d (pr * cols + cc)))
          (getQ d (cr * cols + nc))) (getQ d (nr * cols + cc))),
        fmul q025 (fadd (fadd (fadd (getQ d (pr * cols + pc)) (getQ d (pr * cols + nc)))
          (getQ d (nr * cols + pc))) (getQ d (nr * cols + nc))) )
    else
      ( fmul q05 (fadd (getQ d (cr * cols + pc)) (getQ d (cr * cols + nc))),
        getQ d (cr * cols + cc),
        fmul q05 (fadd (getQ d (pr * cols + cc)) (getQ d (nr * cols + cc))) )
  else
    if cc % 2 = 0 then
      ( fmul q05 (fadd (getQ d (pr * cols + cc)) (getQ d (nr * cols + cc))),
        getQ d (cr * cols + cc),
        fmul q05 (fadd (getQ d (cr * cols + pc)) (getQ d (cr * cols + nc))) )
    else
      ( fmul q025 (fadd (fadd (fadd (getQ d (pr * cols + pc)) (getQ d (pr * cols + nc)))
          (getQ d (nr * cols + pc))) (getQ d (nr * cols + nc))),
        fmul q025 (fadd (fadd (fadd (getQ d (pr * cols + cc)) (getQ d (nr * cols + cc)))
          (getQ d (cr * cols + pc))) (getQ d (cr * cols + nc))),
        getQ d (cr * cols + cc) )

/-- The state of a `DebayerRG8` iterator. -/
structure Deb where
  row_idx : ℕ
  col_idx : ℕ
  rows : ℕ
  cols : ℕ
  data : List ℕ
deriving Repr, DecidableEq

/-- `DebayerRG8::new`. -/
def Deb.new (data : List ℕ) (rows cols : ℕ) : Deb :=
  { row_idx := 0, col_idx := 0, rows := rows, cols := cols, data := data }

/-- Result of a call to `DebayerRG8::next`: `done` models `None`, `yield`
models `Some(pixel)`, `panic` models reaching `core::unreachable!()`. -/
inductive StepRes where
  | panic : StepRes
  | done : StepRes
  | yield : Q × Q × Q → StepRes
deriving Repr, DecidableEq

/-- One call to `DebayerRG8::next`, returning the result and the updated
iterator state. -/
def Deb.next (s : Deb) : StepRes × Deb :=
  if s.row_idx = s.rows ∧ s.col_idx = s.cols then (.done, s)
  else
    match mirror s.rows s.row_idx, mirror s.cols s.col_idx with
    | some (pr, cr, nr), some (pc, cc, nc) =>
      let px := pixelAt s.data s.cols pr cr nr pc cc nc
      let col1 := s.col_idx + 1
      let st :=
        if col1 = s.cols then
          if s.row_idx + 1 ≠ s.rows then
            { s with row_idx := s.row_idx + 1, col_idx := 0 }
          else
            { s with row_idx := s.row_idx + 1, col_idx := col1 }
        else { s with col_idx := col1 }
      (.yield px, st)
    | _, _ => (.panic, s)

/-- The iterator state after `k` calls to `next`. -/
def Deb.steps (s : Deb) : ℕ → Deb
  | 0 => s
  | k + 1 => (Deb.steps s k).next.2

/-- The result of the `k`-th call to `next` (0-based). -/
def Deb.item (s : Deb) (k : ℕ) : StepRes := (s.steps k).next.1

/-- The section-4.1 interpolation at coordinate `(row, col)`: border
mirroring per axis, then the parity-based reconstruction.  This is the
per-pixel function realized by `DebayerRG8::next`. -/
def interpolate (data : List ℕ) (rows cols row col : ℕ) : Q × Q × Q :=
  match mirror rows row, mirror cols col with
  | some (pr, cr, nr), some (pc, cc, nc) => pixelAt data cols pr cr nr pc cc nc
  | _, _ => (⟨0, 1⟩, ⟨0, 1⟩, ⟨0, 1⟩)

/-! ## The eager float routine `demosaic_rg8`

`demosaic_rg8(data, width, height, vec)` walks 2×2 tiles with origins
`(row_idx, col_idx)`, `row_idx = 2, 4, ...` while `row_idx < rows - 2`
and `col_idx = 2, 4, ...` while `col_idx < cols - 2`, loading a 4×4 byte
neighborhood and writing 4 packed RGB pixels into `vec`.  The while
loops are modelled with explicit fuel (always sufficient at the call
site); the guard tests are the source's. -/

/-- The normalized 4×4 neighborhood entry `tmpf[4*k + o]` loaded by the
tile at origin `(r, c)`:  `f32::from(data[(r - 1 + k)*cols + (c-1) + o]) * NORM`. -/
def tmpf (data : List ℕ) (cols r c k o : ℕ) : Q :=
  getQ data ((r - 1 + k) * cols + (c - 1 + o))

/-- The four packed-pixel writes performed for the tile at origin `(r, c)`
by `demosaic_rg8`. -/
def demosaicTile (data : List ℕ) (cols r c : ℕ) (vec : List Q) : List Q :=
  let t := tmpf data cols r c
  let i00 := 3 * (r * cols + c)
  let i01 := 3 * (r * cols + c + 1)
  let i10 := 3 * ((r + 1) * cols + c)
  let i11 := 3 * ((r + 1) * cols + c + 1)
  let v := vec
  let v := (v.set i00 (t 1 1)).set (i00 + 1)
    (fmul q025 (fadd (fadd (fadd (t 0 1) (t 1 0)) (t 1 2)) (t 2 1)))
  let v := v.set (i00 + 2)
    (fmul q025 (fadd (fadd (fadd (t 0 0) (t 0 2)) (t 2 0)) (t 2 2)))
  let v := (v.set i01 (fmul q05 (fadd (t 1 1) (t 1 3)))).set (i01 + 1) (t 1 2)
  let v := v.set (i01 + 2) (fmul q05 (fadd (t 0 2) (t 2 2)))
  let v := (v.set i10 (fmul q05 (fadd (t 1 1) (t 3 1)))).set (i10 + 1) (t 2 1)
  let v := v.set (i10 + 2) (fmul q05 (fadd (t 2 0) (t 2 2)))
  let v := v.set i11
    (fmul q025 (fadd (fadd (fadd (t 1 1) (t 1 3)) (t 3 1)) (t 3 3)))
  let v := v.set (i11 + 1)
    (fmul q025 (fadd (fadd (fadd (t 1 2) (t 2 1)) (t 2 3)) (t 3 2)))
  let v := v.set (i11 + 2) (t 2 2)
  v

/-- The inner column loop of `demosaic_rg8`:
`while col_idx < cols - 2 { tile; col_idx += 2 }`. -/
def demoCols (data : List ℕ) (cols r : ℕ) : ℕ → ℕ → List Q → List Q
  | 0, _, vec => vec
  | fuel + 1, c, vec =>
    if c < cols - 2 then demoCols data cols r fuel (c + 2) (demosaicTile data cols r c vec)
    else vec

/-- The outer row loop of `demosaic_rg8`:
`while row_idx < rows - 2 { cols loop from 2; row_idx += 2 }`. -/
def demoRows (data : List ℕ) (cols rows : ℕ) : ℕ → ℕ → List Q → List Q
  | 0, _, vec => vec
  | fuel + 1, r, vec =>
    if r < rows - 2 then demoRows data cols rows fuel (r + 2) (demoCols data cols r (cols + 4) 2 vec)
    else vec

/-- `demosaic_rg8(data, width, height, vec)`. -/
def demosaic_rg8 (data : List ℕ) (width height : ℕ) (vec : List Q) : List Q :=
  demoRows data width height (height + 4) 2 vec

/-! ## The vectorized 8-bit kernels (`debayer_red_channel`,
`debayer_green_channel`, `debayer_blue_channel`, `demosaic_rg8_x86`)

Byte planes are `List ℕ`; SSE/AVX registers are byte lists (index 0 =
lowest address); `_mm_avg_epu8` is the per-byte rounding average
`(a+b+1)/2`; the scalar fallback's `u8` addition is the release-build
wrapping addition (mod 256).  While loops again use explicit fuel,
always sufficient at the call sites. -/

/-- Read a byte (unchecked in the source; out-of-range yields 0). -/
def getB (l : List ℕ) (i : ℕ) : ℕ := l.getD i 0

/-- Write a byte. -/
def setB (l : List ℕ) (i v : ℕ) : List ℕ := l.set i v

/-- Load `n` consecutive bytes starting at `off`
(`_mm_loadu_si128` / `_mm256_loadu_si256`). -/
def load (buf : List ℕ) (off n : ℕ) : List ℕ :=
  (List.range n).map fun k => getB buf (off + k)

/-- Store a byte vector at `off`
(`_mm_storeu_si128` / `_mm256_storeu_si256`). -/
def store : List ℕ → ℕ → List ℕ → List ℕ
  | buf, _, [] => buf
  | buf, off, x :: xs => store (setB buf off x) (off + 1) xs

/-- `_mm_slli_si128`: shift a 16-byte vector towards higher addresses. -/
def slli (v : List ℕ) (imm : ℕ) : List ℕ :=
  (List.range 16).map fun i => if i < imm then 0 else v.getD (i - imm) 0

/-- `_mm_srli_si128`: shift a 16-byte vector towards lower addresses. -/
def srli (v : List ℕ) (imm : ℕ) : List ℕ :=
  (List.range 16).map fun i => v.getD (i + imm) 0

/-- Per-byte bitwise or of `n`-byte vectors (`_mm_or_si128`). -/
def orv (n : ℕ) (a b : List ℕ) : List ℕ :=
  (List.range n).map fun i => (a.getD i 0) ||| (b.getD i 0)

/-- Per-byte bitwise and of `n`-byte vectors (`_mm_and_si128`). -/
def andv (n : ℕ) (a b : List ℕ) : List ℕ :=
  (List.range n).map fun i => (a.getD i 0) &&& (b.getD i 0)

/-- The rounding byte average computed lane-wise by `_mm_avg_epu8` and
`_mm256_avg_epu8`: `(a + b + 1) / 2`. -/
def avgRound (a b : ℕ) : ℕ := (a + b + 1) / 2

/-- Per-byte rounding average of `n`-byte vectors (`_mm_avg_epu8`,
`_mm256_avg_epu8`). -/
def avgv (n : ℕ) (a b : List ℕ) : List ℕ :=
  (List.range n).map fun i => avgRound (a.getD i 0) (b.getD i 0)

/-- The scalar loops' byte average `(a + b) / 2`: `u8` addition wraps
modulo 256 (release semantics; in debug builds an overflowing `a + b`
panics instead), then truncating division. -/
def wavg (a b : ℕ) : ℕ := ((a + b) % 256) / 2

/-- Wrapping `u8` addition, for the green scalar fallback's 4-term sums. -/
def wadd (a b : ℕ) : ℕ := (a + b) % 256

/-- `_mm_set1_epi16(0x00ff)` as bytes (little endian). -/
def m1v : List ℕ := (List.range 16).map fun i => if i % 2 = 0 then 255 else 0

/-- `_mm_set1_epi16(0xff00)` as bytes (little endian). -/
def m2v : List ℕ := (List.range 16).map fun i => if i % 2 = 0 then 0 else 255

/-- `_mm_setr_epi8(0xff, 0, ..., 0)`. -/
def maskFirst : List ℕ := 255 :: List.replicate 15 0

/-- Red horizontal pass, SIMD loop: `while j + 32 <= cols` stepping 16. -/
def redH1 (data : List ℕ) (cols i : ℕ) : ℕ → ℕ → List ℕ → List ℕ × ℕ
  | 0, j, r => (r, j)
  | fuel + 1, j, r =>
    if j + 32 ≤ cols then
      let r1 := load data (i * cols + j) 16
      let r2 := load data (i * cols + j + 16) 16
      let r3 := slli r1 1
      let r4 := orv 16 (srli r1 1) (slli r2 15)
      let r5 := avgv 16 r3 r4
      let r6 := orv 16 (andv 16 r1 m1v) (andv 16 r5 m2v)
      redH1 data cols i fuel (j + 16) (store r (i * cols + j) r6)
    else (r, j)

/-- Red horizontal pass, first scalar loop: `while j + 4 < cols`. -/
def redH2 (data : List ℕ) (cols i : ℕ) : ℕ → ℕ → List ℕ → List ℕ × ℕ
  | 0, j, r => (r, j)
  | fuel + 1, j, r =>
    if j + 4 < cols then
      let r1 := getB data (i * cols + j + 0)
      let r2 := getB data (i * cols + j + 2)
      let r3 := getB data (i * cols + j + 4)
      let r' := setB (setB (setB (setB r (i * cols + j + 0) r1)
        (i * cols + j + 1) (wavg r1 r2)) (i * cols + j + 2) r2) (i * cols + j + 3) (wavg r2 r3)
      redH2 data cols i fuel (j + 4) r'
    else (r, j)

/-- Red horizontal pass, second scalar loop: `while j + 2 < cols`. -/
def redH3 (data : List ℕ) (cols i : ℕ) : ℕ → ℕ → List ℕ → List ℕ × ℕ
  | 0, j, r => (r, j)
  | fuel + 1, j, r =>
    if j + 2 < cols then
      let r1 := getB data (i * cols + j + 0)
      let r2 := getB data (i * cols + j + 2)
      let r' := setB (setB r (i * cols + j + 0) r1) (i * cols + j + 1) (wavg r1 r2)
      redH3 data cols i fuel (j + 2) r'
    else (r, j)

/-- Red horizontal pass over one even row. -/
def redHRow (data : List ℕ) (cols i : ℕ) (r : List ℕ) : List ℕ :=
  let p1 := redH1 data cols i (cols + 40) 0 r
  let p2 := redH2 data cols i (cols + 40) p1.2 p1.1
  let p3 := redH3 data cols i (cols + 40) p2.2 p2.1
  p3.1

/-- Red horizontal pass row loop: `while i < rows` stepping 2. -/
def redHRows (data : List ℕ) (cols rows : ℕ) : ℕ → ℕ → List ℕ → List ℕ
  | 0, _, r => r
  | fuel + 1, i, r =>
    if i < rows then redHRows data cols rows fuel (i + 2) (redHRow data cols i r)
    else r

/-- Red vertical pass, SIMD loop: `while j + 32 <= cols` stepping 32,
reading the previously written even rows of `r` itself. -/
def redV1 (cols i : ℕ) : ℕ → ℕ → List ℕ → List ℕ × ℕ
  | 0, j, r => (r, j)
  | fuel + 1, j, r =>
    if j + 32 ≤ cols then
      let r1 := load r ((i + 0) * cols + j) 32
      let r2 := load r ((i + 2) * cols + j) 32
      redV1 cols i fuel (j + 32) (store r ((i + 1) * cols + j) (avgv 32 r1 r2))
    else (r, j)

/-- Red vertical pass, scalar loop: `while j < cols`. -/
def redV2 (cols i : ℕ) : ℕ → ℕ → List ℕ → List ℕ × ℕ
  | 0, j, r => (r, j)
  | fuel + 1, j, r =>
    if j < cols then
      let r1 := getB r ((i + 0) * cols + j)
      let r2 := getB r ((i + 2) * cols + j)
      redV2 cols i fuel (j + 1) (setB r ((i + 1) * cols + j) (wavg r1 r2))
    else (r, j)

/-- Red vertical pass row loop: `while i + 2 < rows` stepping 2. -/
def redVRows (cols rows : ℕ) : ℕ → ℕ → List ℕ → List ℕ
  | 0, _, r => r
  | fuel + 1, i, r =>
    if i + 2 < rows then
      let p1 := redV1 cols i (cols + 40) 0 r
      let p2 := redV2 cols i (cols + 40) p1.2 p1.1
      redVRows cols rows fuel (i + 2) p2.1
    else r

/-- `debayer_red_channel(data, rows, cols, r)`. -/
def debayer_red_channel (data : List ℕ) (rows cols : ℕ) (r : List ℕ) : List ℕ :=
  redVRows cols rows (rows + 4) 0 (redHRows data cols rows (rows + 4) 0 r)

/-- Green pass, SIMD loop: `while j + 32 <= cols` stepping 16. -/
def greenS (data : List ℕ) (rows cols i : ℕ) : ℕ → ℕ → List ℕ → List ℕ × ℕ
  | 0, j, g => (g, j)
  | fuel + 1, j, g =>
    if j + 32 ≤ cols then
      let g1 := load data ((i + 0) * cols + j) 16
      let g2 := load data ((i + 1) * cols + j) 16
      let g3 :=
        if j = 0 then orv 16 (andv 16 (srli g1 1) maskFirst) (slli g1 1)
        else orv 16 (srli (load data ((i + 0) * cols + j - 16) 16) 15) (slli g1 1)
      let g4 := orv 16 (slli (load data ((i + 1) * cols + j + 16) 16) 15) (srli g2 1)
      let g5 := andv 16 (avgv 16 (srli g1 1) g3) m1v
      let g6 := andv 16 (avgv 16 (slli g2 1) g4) m2v
      let g7 := orv 16 g5 (andv 16 g1 m2v)
      let g8 := orv 16 g6 (andv 16 g2 m1v)
      let g9 := if 0 < i then load data ((i - 1) * cols + j) 16 else g2
      let g10 := if i + 2 < rows then load data ((i + 2) * cols + j) 16 else g1
      let g11 := orv 16 (andv 16 (avgv 16 g7 (avgv 16 g9 g2)) m1v) (andv 16 g1 m2v)
      let g12 := orv 16 (andv 16 (avgv 16 g8 (avgv 16 g10 g1)) m2v) (andv 16 g2 m1v)
      let g' := store (store g ((i + 0) * cols + j) g11) ((i + 1) * cols + j) g12
      greenS data rows cols i fuel (j + 16) g'
    else (g, j)

/-- Green pass, scalar loop: `while j < cols` stepping 2; the 4-term `u8`
sums wrap and are divided by 4 with truncation. -/
def greenT (data : List ℕ) (rows cols i : ℕ) : ℕ → ℕ → List ℕ → List ℕ × ℕ
  | 0, j, g => (g, j)
  | fuel + 1, j, g =>
    if j < cols then
      let g1 := getB data ((i + 0) * cols + j + 1)
      let g2 := if 0 < j then getB data ((i + 0) * cols + j - 1) else g1
      let g3 := getB data ((i + 1) * cols + j)
      let g4 := if j + 2 < cols then getB data ((i + 1) * cols + j + 2) else g3
      let g5 := if 0 < i then getB data ((i - 1) * cols + j) else g3
      let g6 := if i + 2 < rows then getB data ((i + 2) * cols + j + 1) else g1
      let g' := setB (setB (setB (setB g
        ((i + 0) * cols + j) (wadd (wadd (wadd g1 g2) g3) g5 / 4))
        ((i + 0) * cols + j + 1) g1)
        ((i + 1) * cols + j) g3)
        ((i + 1) * cols + j + 1) (wadd (wadd (wadd g1 g3) g4) g6 / 4)
      greenT data rows cols i fuel (j + 2) g'
    else (g, j)

/-- Green row loop: `while i < rows` stepping 2. -/
def greenRows (data : List ℕ) (rows cols : ℕ) : ℕ → ℕ → List ℕ → List ℕ
  | 0, _, g => g
  | fuel + 1, i, g =>
    if i < rows then
      let p1 := greenS data rows cols i (cols + 40) 0 g
      let p2 := greenT data rows cols i (cols + 40) p1.2 p1.1
      greenRows data rows cols fuel (i + 2) p2.1
    else g

/-- `debayer_green_channel(data, rows, cols, g)`. -/
def debayer_green_channel (data : List ℕ) (rows cols : ℕ) (g : List ℕ) : List ℕ :=
  greenRows data rows cols (rows + 4) 0 g

/-- Blue horizontal pass, SIMD loop: `while j + 16 <= cols` stepping 16,
threading the previous 16-byte group `b0`. -/
def blueH1 (data : List ℕ) (cols i : ℕ) : ℕ → ℕ → List ℕ → List ℕ → List ℕ × ℕ
  | 0, j, _, b => (b, j)
  | fuel + 1, j, b0, b =>
    if j + 16 ≤ cols then
      let b1 := load data ((i + 1) * cols + j) 16
      let b2 := srli b1 1
      let b3 := orv 16 (slli b1 1) (srli b0 15)
      let b4 := avgv 16 b2 b3
      let b5 := orv 16 (andv 16 b1 m2v) (andv 16 b4 m1v)
      blueH1 data cols i fuel (j + 16) b1 (store b ((i + 1) * cols + j) b5)
    else (b, j)

/-- Blue horizontal pass, first scalar loop: `while j + 3 < cols`. -/
def blueH2 (data : List ℕ) (cols i : ℕ) : ℕ → ℕ → List ℕ → List ℕ × ℕ
  | 0, j, b => (b, j)
  | fuel + 1, j, b =>
    if j + 3 < cols then
      let b1 := getB data ((i + 1) * cols + j - 1)
      let b2 := getB data ((i + 1) * cols + j + 1)
      let b3 := getB data ((i + 1) * cols + j + 3)
      let b' := setB (setB (setB (setB b
        ((i + 1) * cols + j + 0) (wavg b1 b2))
        ((i + 1) * cols + j + 1) b2)
        ((i + 1) * cols + j + 2) (wavg b2 b3))
        ((i + 1) * cols + j + 3) b3
      blueH2 data cols i fuel (j + 4) b'
    else (b, j)

/-- Blue horizontal pass, second scalar loop: `while j + 1 < cols`. -/
def blueH3 (data : List ℕ) (cols i : ℕ) : ℕ → ℕ → List ℕ → List ℕ × ℕ
  | 0, j, b => (b, j)
  | fuel + 1, j, b =>
    if j + 1 < cols then
      let b1 := getB data ((i + 1) * cols + j - 1)
      let b2 := getB data ((i + 1) * cols + j + 1)
      let b' := setB (setB b ((i + 1) * cols + j + 0) (wavg b1 b2)) ((i + 1) * cols + j + 1) b2
      blueH3 data cols i fuel (j + 2) b'
    else (b, j)

/-- Blue horizontal pass row loop: `while i < rows` stepping 2.  The
initial `b0` mirrors the first group of row 1 (`p.add(1 * cols)`),
shifted so its two lowest bytes land at the top. -/
def blueHRows (data : List ℕ) (cols rows : ℕ) : ℕ → ℕ → List ℕ → List ℕ
  | 0, _, b => b
  | fuel + 1, i, b =>
    if i < rows then
      let b0 := slli (load data (1 * cols + 0) 16) 14
      let p1 := blueH1 data cols i (cols + 40) 0 b0 b
      let p2 := blueH2 data cols i (cols + 40) p1.2 p1.1
      let p3 := blueH3 data cols i (cols + 40) p2.2 p2.1
      blueHRows data cols rows fuel (i + 2) p3.1
    else b

/-- Blue vertical pass, SIMD loop: `while j + 32 <= cols` stepping 32,
reading the previously written odd rows of `b` itself. -/
def blueV1 (cols rows i : ℕ) : ℕ → ℕ → List ℕ → List ℕ × ℕ
  | 0, j, b => (b, j)
  | fuel + 1, j, b =>
    if j + 32 ≤ cols then
      let b1 :=
        if i = 0 then load b (1 * cols + j) 32
        else load b ((i - 1) * cols + j) 32
      let b2 := load b ((i + 1) * cols + j) 32
      blueV1 cols rows i fuel (j + 32) (store b ((i + 0) * cols + j) (avgv 32 b1 b2))
    else (b, j)

/-- Blue vertical pass, scalar loop: `while j < cols`, threading `b3`
(which after the first iteration holds the previous column's `b4`). -/
def blueV2 (cols i : ℕ) : ℕ → ℕ → ℕ → List ℕ → List ℕ × ℕ
  | 0, j, _, b => (b, j)
  | fuel + 1, j, b3, b =>
    if j < cols then
      let b4 := getB b ((i + 1) * cols + j)
      blueV2 cols i fuel (j + 1) b4 (setB b ((i + 0) * cols + j) (wavg b3 b4))
    else (b, j)

/-- Blue vertical pass row loop: `while i + 1 < rows` stepping 2. -/
def blueVRows (cols rows : ℕ) : ℕ → ℕ → List ℕ → List ℕ
  | 0, _, b => b
  | fuel + 1, i, b =>
    if i + 1 < rows then
      let p1 := blueV1 cols rows i (cols + 40) 0 b
      let b3 := if i = 0 then getB p1.1 ((0 + 1) * cols + p1.2) else getB p1.1 ((i - 1) * cols + p1.2)
      let p2 := blueV2 cols i (cols + 40) p1.2 b3 p1.1
      blueVRows cols rows fuel (i + 2) p2.1
    else b

/-- `debayer_blue_channel(data, rows, cols, b)`. -/
def debayer_blue_channel (data : List ℕ) (rows cols : ℕ) (b : List ℕ) : List ℕ :=
  blueVRows cols rows (rows + 4) 0 (blueHRows data cols rows (rows + 4) 0 b)

/-- The planar image `cvr::rgb::Image<u8>`: three channel planes. -/
structure Image where
  r : List ℕ
  g : List ℕ
  b : List ℕ
deriving Repr, DecidableEq

/-- `Vec::resize(n, 0)`: truncate or extend with zeros. -/
def resize (l : List ℕ) (n : ℕ) : List ℕ :=
  l.take n ++ List.replicate (n - l.length) 0

/-- `demosaic_rg8_x86(data, width, height, img)`: resize the three planes
to `width*height` and run the three channel kernels
(`rows = height`, `cols = width`). -/
def demosaic_rg8_x86 (data : List ℕ) (width height : ℕ) (img : Image) : Image :=
  { r := debayer_red_channel data height width (resize img.r (width * height)),
    g := debayer_green_channel data height width (resize img.g (width * height)),
    b := debayer_blue_channel data height width (resize img.b (width * height)) }

/-! ## Color conversions from `convert.rs` needed by the claims -/

/-- `f32::max` on exact values. -/
def fmax (a b : Q) : Q := if a.blt b then b else a

/-- `f32::min` on exact values. -/
def fmin (a b : Q) : Q := if b.blt a then b else a

/-- The rational zero in its canonical representation. -/
def q0 : Q := ⟨0, 1⟩

/-- `convert::linear_to_hsv([r, g, b])`.  The final `else` branch models
`std::hint::unreachable_unchecked()` (never reached, since the maximum of
three values equals one of them). -/
def linear_to_hsv (rgb : Q × Q × Q) : Q × Q × Q :=
  let r := rgb.1
  let g := rgb.2.1
  let b := rgb.2.2
  let x_max := fmax (fmax r g) b
  let x_min := fmin (fmin r g) b
  let c := fsub x_max x_min
  let v := x_max
  let h :=
    if c.beq q0 then q0
    else if v.beq r then fmul (Q.ofNat 60) (fadd q0 (fdiv (fsub g b) c))
    else if v.beq g then fmul (Q.ofNat 60) (fadd ⟨2, 1⟩ (fdiv (fsub b r) c))
    else if v.beq b then fmul (Q.ofNat 60) (fadd ⟨4, 1⟩ (fdiv (fsub r g) c))
    else q0
  let s := if v.beq q0 then q0 else fdiv c v
  let h2 := if h.blt q0 then fadd (Q.ofNat 360) h else h
  (h2, s, v)

/-- The set of buffer indices (as a list) that the pixel computation of
`DebayerRG8::next` may read at coordinate `(row, col)`: the nine
combinations of the mirrored row triple with the mirrored column triple. -/
def readIdxs (rows cols row col : ℕ) : List ℕ :=
  match mirror rows row, mirror cols col with
  | some (pr, cr, nr), some (pc, cc, nc) =>
    [cr * cols + cc,
     cr * cols + pc, pr * cols + cc, cr * cols + nc, nr * cols + cc,
     pr * cols + pc, pr * cols + nc, nr * cols + pc, nr * cols + nc]
  | _, _ => []

/-! ## Supporting lemmas -/

theorem getD_set_self {α : Type} (l : List α) (i : ℕ) (a d : α) (h : i < l.length) :
    (l.set i a).getD i d = a := by
  simp [List.getD_eq_getElem?_getD, List.getElem?_set_self h]

theorem getD_set_ne {α : Type} (l : List α) (i j : ℕ) (a d : α) (h : i ≠ j) :
    (l.set i a).getD j d = l.getD j d := by
  simp [List.getD_eq_getElem?_getD, List.getElem?_set_ne h]


theorem getD_set_eq_of (l : List Q) (i j : ℕ) (a d : Q) (h1 : i = j) (h2 : j < l.length) :
    (l.set i a).getD j d = a := by
  subst h1
  exact getD_set_self l i a d h2

theorem getD_set_ne2 (l : List Q) (i j : ℕ) (a d : Q) (h : ¬ i = j) :
    (l.set i a).getD j d = l.getD j d :=
  getD_set_ne l i j a d h

/-- For an in-range coordinate on an axis of size at least two, the mirror
resolution succeeds, keeps the current index, and stays in range. -/
theorem mirror_eq_some (size idx : ℕ) (h2 : 2 ≤ size) (hlt : idx < size) :
    ∃ p n, mirror size idx = some (p, idx, n) ∧ p < size ∧ n < size := by
  unfold mirror
  by_cases h0 : idx = 0
  · subst h0; exact ⟨1, 1, by simp, by omega, by omega⟩
  · by_cases h1 : 1 ≤ idx ∧ idx < size - 1
    · refine ⟨idx - 1, idx + 1, ?_, by omega, by omega⟩
      simp [h0, h1]
    · have hl : idx = size - 1 := by omega
      subst hl
      refine ⟨size - 2, size - 2, ?_, by omega, by omega⟩
      rw [if_neg h0, if_neg h1, if_pos rfl]

/-- Row-major packing of an in-range coordinate is in range. -/
theorem rowmajor_lt (rows cols r c : ℕ) (hr : r < rows) (hc : c < cols) :
    r * cols + c < rows * cols := by
  calc r * cols + c < r * cols + cols := by omega
  _ = (r + 1) * cols := by ring
  _ ≤ rows * cols := Nat.mul_le_mul_right cols (by omega)

/-- `Deb.next` at an in-range cursor yields `interpolate` and advances the
cursor as the source does. -/
theorem next_at_cursor (data : List ℕ) (rows cols row col : ℕ)
    (h2r : 2 ≤ rows) (h2c : 2 ≤ cols) (hr : row < rows) (hc : col < cols) :
    (⟨row, col, rows, cols, data⟩ : Deb).next =
      (.yield (interpolate data rows cols row col),
        if col + 1 = cols then
          (if row + 1 ≠ rows then (⟨row + 1, 0, rows, cols, data⟩ : Deb)
           else ⟨row + 1, col + 1, rows, cols, data⟩)
        else ⟨row, col + 1, rows, cols, data⟩) := by
  obtain ⟨pr, nr, hmr, _, _⟩ := mirror_eq_some rows row h2r hr
  obtain ⟨pc, nc, hmc, _, _⟩ := mirror_eq_some cols col h2c hc
  have hguard : ¬(row = rows ∧ col = cols) := by omega
  simp only [Deb.next, hguard, if_false, hmr, hmc, interpolate]

/-- The terminal state is a fixpoint of `Deb.next`, returning `done`. -/
theorem next_terminal (data : List ℕ) (rows cols : ℕ) :
    (⟨rows, cols, rows, cols, data⟩ : Deb).next =
      (.done, (⟨rows, cols, rows, cols, data⟩ : Deb)) := by
  unfold Deb.next
  rw [if_pos ⟨rfl, rfl⟩]

/-- Cursor-state characterization: after `k ≤ rows*cols` calls to `next`,
the iterator sits at the row-major coordinate `(k / cols, k % cols)`
(or at the terminal state when `k = rows*cols`). -/
theorem steps_char (data : List ℕ) (rows cols : ℕ) (h2r : 2 ≤ rows) (h2c : 2 ≤ cols) :
    ∀ k : ℕ, k ≤ rows * cols →
      (Deb.new data rows cols).steps k =
        if k = rows * cols then (⟨rows, cols, rows, cols, data⟩ : Deb)
        else ⟨k / cols, k % cols, rows, cols, data⟩ := by
  intro k
  induction k with
  | zero =>
    intro _
    have hpos : 0 < rows * cols := Nat.mul_pos (by omega) (by omega)
    rw [if_neg (by omega)]
    simp [Deb.steps, Deb.new, Nat.zero_div, Nat.zero_mod]
  | succ k ih =>
    intro hk1
    have hk : k < rows * cols := by omega
    have hcols : 0 < cols := by omega
    have hrowlt : k / cols < rows := Nat.div_lt_of_lt_mul (by rw [mul_comm]; exact hk)
    have hcollt : k % cols < cols := Nat.mod_lt _ hcols
    have hqm : cols * (k / cols) + k % cols = k := Nat.div_add_mod k cols
    have hstep : (Deb.new data rows cols).steps (k + 1) =
        ((Deb.new data rows cols).steps k).next.2 := rfl
    rw [hstep, ih (by omega), if_neg (by omega),
      next_at_cursor data rows cols _ _ h2r h2c hrowlt hcollt]
    by_cases hcol : k % cols + 1 = cols
    · have hdvd : (k + 1) = (k / cols + 1) * cols := by
        calc k + 1 = cols * (k / cols) + (k % cols + 1) := by omega
        _ = cols * (k / cols) + cols := by rw [hcol]
        _ = (k / cols + 1) * cols := by ring
      by_cases hrow : k / cols + 1 = rows
      · have hfin : k + 1 = rows * cols := by rw [hdvd, hrow]
        simp [hcol, hrow, hfin]
      · have hne : k + 1 ≠ rows * cols := by
          intro hcon
          have h1 : (k / cols + 1) * cols = rows * cols := by rw [← hdvd, hcon]
          have := Nat.eq_of_mul_eq_mul_right hcols h1
          omega
        have hdiv : (k + 1) / cols = k / cols + 1 := by
          rw [hdvd, Nat.mul_div_cancel _ hcols]
        have hmod : (k + 1) % cols = 0 := by
          rw [hdvd, Nat.mul_mod_left]
        simp only [hcol, if_pos rfl, hrow, ne_eq, not_false_eq_true, if_true, if_neg hne,
          hdiv, hmod]
    · have hlt' : k % cols + 1 < cols := by omega
      have hk1eq : k + 1 = k % cols + 1 + cols * (k / cols) := by omega
      have hdiv : (k + 1) / cols = k / cols := by
        rw [hk1eq, Nat.add_mul_div_left _ _ hcols, Nat.div_eq_of_lt hlt', Nat.zero_add]
      have hmod : (k + 1) % cols = k % cols + 1 := by
        rw [hk1eq, Nat.add_mul_mod_self_left, Nat.mod_eq_of_lt hlt']
      have hne : k + 1 ≠ rows * cols := by
        intro hcon
        have h0 : (k + 1) % cols = 0 := by rw [hcon, Nat.mul_mod_left]
        omega
      simp [hcol, hne, hdiv, hmod]

/-- The `k`-th item, for `k < rows*cols`, is the interpolation at the
row-major coordinate `(k / cols, k % cols)`. -/
theorem item_yield (data : List ℕ) (rows cols : ℕ) (h2r : 2 ≤ rows) (h2c : 2 ≤ cols)
    (k : ℕ) (hk : k < rows * cols) :
    (Deb.new data rows cols).item k =
      .yield (interpolate data rows cols (k / cols) (k % cols)) := by
  have hcols : 0 < cols := by omega
  have hrowlt : k / cols < rows := Nat.div_lt_of_lt_mul (by rw [mul_comm]; exact hk)
  have hcollt : k % cols < cols := Nat.mod_lt _ hcols
  unfold Deb.item
  rw [steps_char data rows cols h2r h2c k (by omega), if_neg (by omega),
    next_at_cursor data rows cols _ _ h2r h2c hrowlt hcollt]

/-- After exhaustion the cursor stays at the terminal state. -/
theorem steps_ge (data : List ℕ) (rows cols : ℕ) (h2r : 2 ≤ rows) (h2c : 2 ≤ cols)
    (k : ℕ) (hk : rows * cols ≤ k) :
    (Deb.new data rows cols).steps k = ⟨rows, cols, rows, cols, data⟩ := by
  obtain ⟨m, rfl⟩ := Nat.exists_eq_add_of_le hk
  induction m with
  | zero =>
    rw [steps_char data rows cols h2r h2c _ (by omega), if_pos (by omega)]
  | succ m ih =>
    have hstep : (Deb.new data rows cols).steps (rows * cols + (m + 1)) =
        ((Deb.new data rows cols).steps (rows * cols + m)).next.2 := rfl
    rw [hstep, ih (by omega), next_terminal]

/-- After exhaustion every call to `next` returns `done`. -/
theorem item_done (data : List ℕ) (rows cols : ℕ) (h2r : 2 ≤ rows) (h2c : 2 ≤ cols)
    (k : ℕ) (hk : rows * cols ≤ k) :
    (Deb.new data rows cols).item k = .done := by
  unfold Deb.item
  rw [steps_ge data rows cols h2r h2c k hk, next_terminal]

/-- The item at the row-major position of an in-range coordinate is the
interpolation at that coordinate. -/
theorem item_rowcol (data : List ℕ) (rows cols row col : ℕ)
    (h2r : 2 ≤ rows) (h2c : 2 ≤ cols) (hr : row < rows) (hc : col < cols) :
    (Deb.new data rows cols).item (row * cols + col) =
      .yield (interpolate data rows cols row col) := by
  have hcols : 0 < cols := by omega
  have heq : row * cols + col = col + cols * row := by ring
  have hdiv : (row * cols + col) / cols = row := by
    rw [heq, Nat.add_mul_div_left _ _ hcols, Nat.div_eq_of_lt hc, Nat.zero_add]
  have hmod : (row * cols + col) % cols = col := by
    rw [heq, Nat.add_mul_mod_self_left, Nat.mod_eq_of_lt hc]
  rw [item_yield data rows cols h2r h2c _ (rowmajor_lt rows cols row col hr hc),
    hdiv, hmod]

/-- C7: for every `rows, cols ≥ 2` the iterator `DebayerRG8::new(data, rows, cols)`
yields exactly `rows*cols` `Some` items — the `k`-th being the interpolation at
the row-major coordinate `(k / cols, k % cols)` — and afterwards every call to
`next` returns `None` with the cursor left at the terminal state, never
restarting. -/
theorem C7_row_major_exhaustion (data : List ℕ) (rows cols : ℕ)
    (h2r : 2 ≤ rows) (h2c : 2 ≤ cols) :
    (∀ k, k < rows * cols → (Deb.new data rows cols).item k =
      .yield (interpolate data rows cols (k / cols) (k % cols))) ∧
    (∀ k, rows * cols ≤ k → (Deb.new data rows cols).item k = .done ∧
      (Deb.new data rows cols).steps k = ⟨rows, cols, rows, cols, data⟩) :=
  ⟨fun k hk => item_yield data rows cols h2r h2c k hk,
   fun k hk => ⟨item_done data rows cols h2r h2c k hk,
     steps_ge data rows cols h2r h2c k hk⟩⟩

/-- Witness for C7 at `rows = cols = 2`, `data = [1,2,3,4]`. -/
theorem C7_row_major_exhaustion_witness :
    (2 ≤ 2 ∧ 2 ≤ 2) ∧
    ((∀ k, k < 2 * 2 → (Deb.new [1, 2, 3, 4] 2 2).item k =
      .yield (interpolate [1, 2, 3, 4] 2 2 (k / 2) (k % 2))) ∧
    (∀ k, 2 * 2 ≤ k → (Deb.new [1, 2, 3, 4] 2 2).item k = .done ∧
      (Deb.new [1, 2, 3, 4] 2 2).steps k = ⟨2, 2, 2, 2, [1, 2, 3, 4]⟩)) :=
  ⟨⟨le_refl 2, le_refl 2⟩, C7_row_major_exhaustion [1, 2, 3, 4] 2 2 (le_refl 2) (le_refl 2)⟩

/-- C2: for every buffer with `rows, cols ≥ 2` and `len ≥ rows*cols`, the
`(row*cols + col)`-th item of `DebayerRG8::new(data, rows, cols)` is exactly
the parity-rule triple `interpolate data rows cols row col` (mirrored
neighbors, normalization by the `f32` of `1/255`, and the four
parity-selected weighted averages). -/
theorem C2_item_is_parity_rule (data : List ℕ) (rows cols row col : ℕ)
    (h2r : 2 ≤ rows) (h2c : 2 ≤ cols) (_hlen : rows * cols ≤ data.length)
    (hr : row < rows) (hc : col < cols) :
    (Deb.new data rows cols).item (row * cols + col) =
      .yield (interpolate data rows cols row col) :=
  item_rowcol data rows cols row col h2r h2c hr hc

/-- Witness for C2 at `rows = cols = 2`, `data = [1,2,3,4]`, `(row, col) = (1, 0)`. -/
theorem C2_item_is_parity_rule_witness :
    (2 ≤ 2 ∧ 2 ≤ 2 ∧ 2 * 2 ≤ ([1, 2, 3, 4] : List ℕ).length ∧ 1 < 2 ∧ 0 < 2) ∧
    (Deb.new [1, 2, 3, 4] 2 2).item (1 * 2 + 0) =
      .yield (interpolate [1, 2, 3, 4] 2 2 1 0) :=
  ⟨by decide,
   C2_item_is_parity_rule [1, 2, 3, 4] 2 2 1 0 (by decide) (by decide) (by decide)
     (by decide) (by decide)⟩

/-- C6: for a buffer with `rows, cols ≥ 2` and `len ≥ rows*cols`, the
iterator never reaches `core::unreachable!()` from any reachable cursor
state; every index a pixel computation may read (the mirrored
row/column combinations) is below `data.length`; and the interpolation
depends on the buffer only through those indices. -/
theorem C6_reads_in_bounds (data : List ℕ) (rows cols : ℕ)
    (h2r : 2 ≤ rows) (h2c : 2 ≤ cols) (hlen : rows * cols ≤ data.length) :
    (∀ k, (Deb.new data rows cols).item k ≠ .panic) ∧
    (∀ row col, row < rows → col < cols →
      ∀ i ∈ readIdxs rows cols row col, i < data.length) ∧
    (∀ (d d' : List ℕ) (row col : ℕ), row < rows → col < cols →
      (∀ i ∈ readIdxs rows cols row col, d.getD i 0 = d'.getD i 0) →
      interpolate d rows cols row col = interpolate d' rows cols row col) := by
  refine ⟨?_, ?_, ?_⟩
  · intro k
    rcases lt_or_ge k (rows * cols) with hk | hk
    · rw [item_yield data rows cols h2r h2c k hk]; simp
    · rw [item_done data rows cols h2r h2c k hk]; simp
  · intro row col hr hc i hi
    obtain ⟨pr, nr, hmr, hpr, hnr⟩ := mirror_eq_some rows row h2r hr
    obtain ⟨pc, nc, hmc, hpc, hnc⟩ := mirror_eq_some cols col h2c hc
    simp only [readIdxs, hmr, hmc, List.mem_cons, List.not_mem_nil, or_false] at hi
    have hb : ∀ r c, r < rows → c < cols → r * cols + c < data.length := fun r c h1 h2 =>
      lt_of_lt_of_le (rowmajor_lt rows cols r c h1 h2) hlen
    rcases hi with h | h | h | h | h | h | h | h | h <;> subst h
    · exact hb row col hr hc
    · exact hb row pc hr hpc
    · exact hb pr col hpr hc
    · exact hb row nc hr hnc
    · exact hb nr col hnr hc
    · exact hb pr pc hpr hpc
    · exact hb pr nc hpr hnc
    · exact hb nr pc hnr hpc
    · exact hb nr nc hnr hnc
  · intro d d' row col hr hc hagree
    obtain ⟨pr, nr, hmr, hpr, hnr⟩ := mirror_eq_some rows row h2r hr
    obtain ⟨pc, nc, hmc, hpc, hnc⟩ := mirror_eq_some cols col h2c hc
    have key : ∀ i ∈ readIdxs rows cols row col, getQ d i = getQ d' i := by
      intro i hi
      unfold getQ
      rw [hagree i hi]
    have mem : ∀ i, i ∈ ([row * cols + col,
        row * cols + pc, pr * cols + col, row * cols + nc, nr * cols + col,
        pr * cols + pc, pr * cols + nc, nr * cols + pc, nr * cols + nc] : List ℕ) →
        i ∈ readIdxs rows cols row col := by
      intro i hi
      simpa only [readIdxs, hmr, hmc] using hi
    have e1 := key (row * cols + col) (mem _ (by simp))
    have e2 := key (row * cols + pc) (mem _ (by simp))
    have e3 := key (pr * cols + col) (mem _ (by simp))
    have e4 := key (row * cols + nc) (mem _ (by simp))
    have e5 := key (nr * cols + col) (mem _ (by simp))
    have e6 := key (pr * cols + pc) (mem _ (by simp))
    have e7 := key (pr * cols + nc) (mem _ (by simp))
    have e8 := key (nr * cols + pc) (mem _ (by simp))
    have e9 := key (nr * cols + nc) (mem _ (by simp))
    unfold interpolate
    rw [hmr, hmc]
    simp only [pixelAt, e1, e2, e3, e4, e5, e6, e7, e8, e9]

/-- Witness for C6 at `rows = cols = 2`, `data = [1,2,3,4]`. -/
theorem C6_reads_in_bounds_witness :
    (2 ≤ 2 ∧ 2 ≤ 2 ∧ 2 * 2 ≤ ([1, 2, 3, 4] : List ℕ).length) ∧
    ((∀ k, (Deb.new [1, 2, 3, 4] 2 2).item k ≠ .panic) ∧
    (∀ row col, row < 2 → col < 2 →
      ∀ i ∈ readIdxs 2 2 row col, i < ([1, 2, 3, 4] : List ℕ).length) ∧
    (∀ (d d' : List ℕ) (row col : ℕ), row < 2 → col < 2 →
      (∀ i ∈ readIdxs 2 2 row col, d.getD i 0 = d'.getD i 0) →
      interpolate d 2 2 row col = interpolate d' 2 2 row col)) :=
  ⟨by decide, C6_reads_in_bounds [1, 2, 3, 4] 2 2 (by decide) (by decide) (by decide)⟩

set_option maxRecDepth 1000000 in
set_option maxHeartbeats 1000000 in
/-- C3: `DebayerRG8::new([1,2,3,4], 2, 2)` yields exactly four pixels; in
row-major order the channels are the `f32` values of the claimed decimal
literals: `R = 0.003921569` for all four, `G = 0.009803923, 0.007843138,
0.011764707, 0.009803923`, `B = 0.015686275` for all four. -/
theorem C3_two_by_two_values :
    (Deb.new [1, 2, 3, 4] 2 2).item 0 =
      .yield (rnd32 ⟨3921569, 1000000000⟩, rnd32 ⟨9803923, 1000000000⟩,
        rnd32 ⟨15686275, 1000000000⟩) ∧
    (Deb.new [1, 2, 3, 4] 2 2).item 1 =
      .yield (rnd32 ⟨3921569, 1000000000⟩, rnd32 ⟨7843138, 1000000000⟩,
        rnd32 ⟨15686275, 1000000000⟩) ∧
    (Deb.new [1, 2, 3, 4] 2 2).item 2 =
      .yield (rnd32 ⟨3921569, 1000000000⟩, rnd32 ⟨11764707, 1000000000⟩,
        rnd32 ⟨15686275, 1000000000⟩) ∧
    (Deb.new [1, 2, 3, 4] 2 2).item 3 =
      .yield (rnd32 ⟨3921569, 1000000000⟩, rnd32 ⟨9803923, 1000000000⟩,
        rnd32 ⟨15686275, 1000000000⟩) ∧
    (Deb.new [1, 2, 3, 4] 2 2).item 4 = .done := by
  decide

/-- C10: `linear_to_hsv` maps black `(0,0,0)` exactly to `(0,0,0)` (H=0,
S=0, V=0 — not the documented `(0,0,1)`), and white `(1,1,1)` exactly to
`(0,0,1)`. -/
theorem C10_hsv_black_white :
    linear_to_hsv (⟨0, 1⟩, ⟨0, 1⟩, ⟨0, 1⟩) = (⟨0, 1⟩, ⟨0, 1⟩, ⟨0, 1⟩) ∧
    linear_to_hsv (⟨1, 1⟩, ⟨1, 1⟩, ⟨1, 1⟩) = (⟨0, 1⟩, ⟨0, 1⟩, ⟨1, 1⟩) := by
  decide

/-- C4 counterexample: the claim's "any pair with `a+b` odd" fails on the
code, whose scalar loops wrap the `u8` sum modulo 256: for `a = 255`,
`b = 2` (odd sum), the vectorized byte average is `129` while the scalar
loops compute `0`, a difference of 129, not 1. -/
theorem C4_wrapping_counterexample :
    avgRound 255 2 = 129 ∧ wavg 255 2 = 0 ∧ avgRound 255 2 ≠ wavg 255 2 + 1 := by
  decide

/-- C4 (amended): the vectorized primitive computes the rounding average
`(a+b+1)/2`; the scalar loops compute `((a+b) mod 256)/2`, which is the
truncating average whenever `a + b ≤ 255`; for every byte pair with
`a + b` odd and `a + b ≤ 255` the vectorized output is exactly one
greater than the scalar output. -/
theorem C4_rounding_vs_truncating (a b : ℕ) (ha : a ≤ 255) (hb : b ≤ 255)
    (hodd : (a + b) % 2 = 1) (hsum : a + b ≤ 255) :
    avgRound a b = wavg a b + 1 := by
  unfold avgRound wavg
  omega

/-- Witness for the amended C4 at `a = 0`, `b = 1`. -/
theorem C4_rounding_vs_truncating_witness :
    (0 ≤ 255 ∧ 1 ≤ 255 ∧ (0 + 1) % 2 = 1 ∧ 0 + 1 ≤ 255) ∧ avgRound 0 1 = wavg 0 1 + 1 :=
  ⟨by decide, C4_rounding_vs_truncating 0 1 (by decide) (by decide) (by decide) (by decide)⟩

/-! ## Length preservation of the 8-bit kernels (for C8) -/

theorem store_length (v : List ℕ) : ∀ (buf : List ℕ) (off : ℕ),
    (store buf off v).length = buf.length := by
  induction v with
  | nil => intro buf off; rfl
  | cons x xs ih =>
    intro buf off
    simp only [store, ih, setB, List.length_set]

theorem redH1_length (data : List ℕ) (cols i : ℕ) :
    ∀ (fuel j : ℕ) (r : List ℕ), ((redH1 data cols i fuel j r).1).length = r.length := by
  intro fuel
  induction fuel with
  | zero => intro j r; rfl
  | succ fuel ih =>
    intro j r
    unfold redH1
    split
    · rw [ih, store_length]
    · rfl

theorem redH2_length (data : List ℕ) (cols i : ℕ) :
    ∀ (fuel j : ℕ) (r : List ℕ), ((redH2 data cols i fuel j r).1).length = r.length := by
  intro fuel
  induction fuel with
  | zero => intro j r; rfl
  | succ fuel ih =>
    intro j r
    unfold redH2
    split
    · simp only [ih, setB, List.length_set]
    · rfl

theorem redH3_length (data : List ℕ) (cols i : ℕ) :
    ∀ (fuel j : ℕ) (r : List ℕ), ((redH3 data cols i fuel j r).1).length = r.length := by
  intro fuel
  induction fuel with
  | zero => intro j r; rfl
  | succ fuel ih =>
    intro j r
    unfold redH3
    split
    · simp only [ih, setB, List.length_set]
    · rfl

theorem redHRows_length (data : List ℕ) (cols rows : ℕ) :
    ∀ (fuel i : ℕ) (r : List ℕ), (redHRows data cols rows fuel i r).length = r.length := by
  intro fuel
  induction fuel with
  | zero => intro i r; rfl
  | succ fuel ih =>
    intro i r
    unfold redHRows
    split
    · rw [ih]
      unfold redHRow
      rw [redH3_length, redH2_length, redH1_length]
    · rfl

theorem redV1_length (cols i : ℕ) :
    ∀ (fuel j : ℕ) (r : List ℕ), ((redV1 cols i fuel j r).1).length = r.length := by
  intro fuel
  induction fuel with
  | zero => intro j r; rfl
  | succ fuel ih =>
    intro j r
    unfold redV1
    split
    · rw [ih, store_length]
    · rfl

theorem redV2_length (cols i : ℕ) :
    ∀ (fuel j : ℕ) (r : List ℕ), ((redV2 cols i fuel j r).1).length = r.length := by
  intro fuel
  induction fuel with
  | zero => intro j r; rfl
  | succ fuel ih =>
    intro j r
    unfold redV2
    split
    · simp only [ih, setB, List.length_set]
    · rfl

theorem redVRows_length (cols rows : ℕ) :
    ∀ (fuel i : ℕ) (r : List ℕ), (redVRows cols rows fuel i r).length = r.length := by
  intro fuel
  induction fuel with
  | zero => intro i r; rfl
  | succ fuel ih =>
    intro i r
    unfold redVRows
    split
    · rw [ih, redV2_length, redV1_length]
    · rfl

theorem red_channel_length (data : List ℕ) (rows cols : ℕ) (r : List ℕ) :
    (debayer_red_channel data rows cols r).length = r.length := by
  unfold debayer_red_channel
  rw [redVRows_length, redHRows_length]

theorem greenS_length (data : List ℕ) (rows cols i : ℕ) :
    ∀ (fuel j : ℕ) (g : List ℕ), ((greenS data rows cols i fuel j g).1).length = g.length := by
  intro fuel
  induction fuel with
  | zero => intro j g; rfl
  | succ fuel ih =>
    intro j g
    unfold greenS
    split
    · rw [ih, store_length, store_length]
    · rfl

theorem greenT_length (data : List ℕ) (rows cols i : ℕ) :
    ∀ (fuel j : ℕ) (g : List ℕ), ((greenT data rows cols i fuel j g).1).length = g.length := by
  intro fuel
  induction fuel with
  | zero => intro j g; rfl
  | succ fuel ih =>
    intro j g
    unfold greenT
    split
    · simp only [ih, setB, List.length_set]
    · rfl

theorem greenRows_length (data : List ℕ) (rows cols : ℕ) :
    ∀ (fuel i : ℕ) (g : List ℕ), (greenRows data rows cols fuel i g).length = g.length := by
  intro fuel
  induction fuel with
  | zero => intro i g; rfl
  | succ fuel ih =>
    intro i g
    unfold greenRows
    split
    · rw [ih, greenT_length, greenS_length]
    · rfl

theorem green_channel_length (data : List ℕ) (rows cols : ℕ) (g : List ℕ) :
    (debayer_green_channel data rows cols g).length = g.length := by
  unfold debayer_green_channel
  rw [greenRows_length]

theorem blueH1_length (data : List ℕ) (cols i : ℕ) :
    ∀ (fuel j : ℕ) (b0 b : List ℕ), ((blueH1 data cols i fuel j b0 b).1).length = b.length := by
  intro fuel
  induction fuel with
  | zero => intro j b0 b; rfl
  | succ fuel ih =>
    intro j b0 b
    unfold blueH1
    split
    · rw [ih, store_length]
    · rfl

theorem blueH2_length (data : List ℕ) (cols i : ℕ) :
    ∀ (fuel j : ℕ) (b : List ℕ), ((blueH2 data cols i fuel j b).1).length = b.length := by
  intro fuel
  induction fuel with
  | zero => intro j b; rfl
  | succ fuel ih =>
    intro j b
    unfold blueH2
    split
    · simp only [ih, setB, List.length_set]
    · rfl

theorem blueH3_length (data : List ℕ) (cols i : ℕ) :
    ∀ (fuel j : ℕ) (b : List ℕ), ((blueH3 data cols i fuel j b).1).length = b.length := by
  intro fuel
  induction fuel with
  | zero => intro j b; rfl
  | succ fuel ih =>
    intro j b
    unfold blueH3
    split
    · simp only [ih, setB, List.length_set]
    · rfl

theorem blueHRows_length (data : List ℕ) (cols rows : ℕ) :
    ∀ (fuel i : ℕ) (b : List ℕ), (blueHRows data cols rows fuel i b).length = b.length := by
  intro fuel
  induction fuel with
  | zero => intro i b; rfl
  | succ fuel ih =>
    intro i b
    unfold blueHRows
    split
    · rw [ih, blueH3_length, blueH2_length, blueH1_length]
    · rfl

theorem blueV1_length (cols rows i : ℕ) :
    ∀ (fuel j : ℕ) (b : List ℕ), ((blueV1 cols rows i fuel j b).1).length = b.length := by
  intro fuel
  induction fuel with
  | zero => intro j b; rfl
  | succ fuel ih =>
    intro j b
    unfold blueV1
    split
    · rw [ih, store_length]
    · rfl

theorem blueV2_length (cols i : ℕ) :
    ∀ (fuel j b3 : ℕ) (b : List ℕ), ((blueV2 cols i fuel j b3 b).1).length = b.length := by
  intro fuel
  induction fuel with
  | zero => intro j b3 b; rfl
  | succ fuel ih =>
    intro j b3 b
    unfold blueV2
    split
    · simp only [ih, setB, List.length_set]
    · rfl

theorem blueVRows_length (cols rows : ℕ) :
    ∀ (fuel i : ℕ) (b : List ℕ), (blueVRows cols rows fuel i b).length = b.length := by
  intro fuel
  induction fuel with
  | zero => intro i b; rfl
  | succ fuel ih =>
    intro i b
    unfold blueVRows
    split
    · rw [ih, blueV2_length, blueV1_length]
    · rfl

theorem blue_channel_length (data : List ℕ) (rows cols : ℕ) (b : List ℕ) :
    (debayer_blue_channel data rows cols b).length = b.length := by
  unfold debayer_blue_channel
  rw [blueVRows_length, blueHRows_length]

theorem resize_length (l : List ℕ) (n : ℕ) : (resize l n).length = n := by
  unfold resize
  rw [List.length_append, List.length_take, List.length_replicate]
  omega

/-- C8: after `demosaic_rg8_x86(data, width, height, img)` each of the
three channel planes of `img` has length exactly `width*height`,
regardless of the planes' lengths before the call. -/
theorem C8_plane_lengths (data : List ℕ) (width height : ℕ) (img : Image)
    (_h2w : 2 ≤ width) (_h2h : 2 ≤ height) :
    ((demosaic_rg8_x86 data width height img).r).length = width * height ∧
    ((demosaic_rg8_x86 data width height img).g).length = width * height ∧
    ((demosaic_rg8_x86 data width height img).b).length = width * height := by
  unfold demosaic_rg8_x86
  refine ⟨?_, ?_, ?_⟩
  · rw [red_channel_length, resize_length]
  · rw [green_channel_length, resize_length]
  · rw [blue_channel_length, resize_length]

/-- Witness for C8 at `width = height = 2` and nonempty stale planes. -/
theorem C8_plane_lengths_witness :
    (2 ≤ 2 ∧ 2 ≤ 2) ∧
    (((demosaic_rg8_x86 [1, 2, 3, 4] 2 2 ⟨[9], [8, 8, 8, 8, 8], []⟩).r).length = 2 * 2 ∧
    ((demosaic_rg8_x86 [1, 2, 3, 4] 2 2 ⟨[9], [8, 8, 8, 8, 8], []⟩).g).length = 2 * 2 ∧
    ((demosaic_rg8_x86 [1, 2, 3, 4] 2 2 ⟨[9], [8, 8, 8, 8, 8], []⟩).b).length = 2 * 2) :=
  ⟨⟨le_refl 2, le_refl 2⟩,
   C8_plane_lengths [1, 2, 3, 4] 2 2 ⟨[9], [8, 8, 8, 8, 8], []⟩ (le_refl 2) (le_refl 2)⟩

/-! ## Constant mosaics (C5) -/

/-- Reading any in-range index of a constant buffer yields the normalized
constant. -/
theorem getQ_replicate (n v idx : ℕ) (h : idx < n) :
    getQ (List.replicate n v) idx = fmul (Q.ofNat v) norm8 := by
  unfold getQ
  rw [List.getD_eq_getElem?_getD, List.getElem?_replicate_of_lt h]
  rfl

set_option maxRecDepth 1000000 in
set_option maxHeartbeats 8000000 in
/-- For every byte value, the source's rounded-`f32` four-neighbor and
two-neighbor averages of four (respectively two) copies of the
normalized value return that value exactly. -/
theorem const_avg_all : ∀ v : ℕ, v < 256 →
    fmul q025 (fadd (fadd (fadd (fmul (Q.ofNat v) norm8) (fmul (Q.ofNat v) norm8))
      (fmul (Q.ofNat v) norm8)) (fmul (Q.ofNat v) norm8)) = fmul (Q.ofNat v) norm8 ∧
    fmul q05 (fadd (fmul (Q.ofNat v) norm8) (fmul (Q.ofNat v) norm8)) =
      fmul (Q.ofNat v) norm8 := by
  decide

/-- On a constant mosaic the interpolation returns the normalized
constant in all three channels, at every coordinate. -/
theorem interpolate_const (rows cols v row col : ℕ)
    (h2r : 2 ≤ rows) (h2c : 2 ≤ cols) (hv : v < 256) (hr : row < rows) (hc : col < cols) :
    interpolate (List.replicate (rows * cols) v) rows cols row col =
      (fmul (Q.ofNat v) norm8, fmul (Q.ofNat v) norm8, fmul (Q.ofNat v) norm8) := by
  obtain ⟨pr, nr, hmr, hpr, hnr⟩ := mirror_eq_some rows row h2r hr
  obtain ⟨pc, nc, hmc, hpc, hnc⟩ := mirror_eq_some cols col h2c hc
  have hread : ∀ r c, r < rows → c < cols →
      getQ (List.replicate (rows * cols) v) (r * cols + c) = fmul (Q.ofNat v) norm8 :=
    fun r c h1 h2 => getQ_replicate _ v _ (rowmajor_lt rows cols r c h1 h2)
  obtain ⟨havg4, havg2⟩ := const_avg_all v hv
  unfold interpolate
  rw [hmr, hmc]
  simp only [pixelAt, hread row col hr hc, hread row pc hr hpc, hread pr col hpr hc,
    hread row nc hr hnc, hread nr col hnr hc, hread pr pc hpr hpc,
    hread pr nc hpr hnc, hread nr pc hnr hpc, hread nr nc hnr hnc]
  split_ifs <;> simp only [havg4, havg2]

set_option maxRecDepth 1000000 in
set_option maxHeartbeats 4000000 in
/-- C5 counterexample: on the all-17 mosaic with `rows = 2`, `cols = 32`,
`demosaic_rg8_x86` leaves the first byte of the red plane's second row at
the resize fill value `0`, not `17` (its vertical pass requires
`i + 2 < rows` and its horizontal pass only covers even rows). -/
theorem C5_x86_gap_counterexample :
    ((demosaic_rg8_x86 (List.replicate 64 17) 32 2 ⟨[], [], []⟩).r).getD 32 0 = 0 ∧
    ((demosaic_rg8_x86 (List.replicate 64 17) 32 2 ⟨[], [], []⟩).r).getD 32 0 ≠ 17 := by
  decide

/-- C5 (amended): on a constant mosaic of value `v`, every item yielded by
`DebayerRG8` is the constant triple whose channels are the normalized
sample `v * NORM` (the `f32` value every native sample position
produces); the 8-bit routine `demosaic_rg8_x86`, by contrast, leaves the
positions skipped by its kernels' loops at the resize fill value. -/
theorem C5_constant_mosaic (rows cols v row col : ℕ)
    (h2r : 2 ≤ rows) (h2c : 2 ≤ cols) (hv : v < 256) (hr : row < rows) (hc : col < cols) :
    (Deb.new (List.replicate (rows * cols) v) rows cols).item (row * cols + col) =
      .yield (fmul (Q.ofNat v) norm8, fmul (Q.ofNat v) norm8, fmul (Q.ofNat v) norm8) := by
  rw [item_rowcol _ rows cols row col h2r h2c hr hc,
    interpolate_const rows cols v row col h2r h2c hv hr hc]

/-- Witness for the amended C5 at `rows = cols = 2`, `v = 17`, `(row, col) = (0, 1)`. -/
theorem C5_constant_mosaic_witness :
    (2 ≤ 2 ∧ 2 ≤ 2 ∧ 17 < 256 ∧ 0 < 2 ∧ 1 < 2) ∧
    (Deb.new (List.replicate (2 * 2) 17) 2 2).item (0 * 2 + 1) =
      .yield (fmul (Q.ofNat 17) norm8, fmul (Q.ofNat 17) norm8, fmul (Q.ofNat 17) norm8) :=
  ⟨by decide,
   C5_constant_mosaic 2 2 17 0 1 (by decide) (by decide) (by decide) (by decide) (by decide)⟩

/-- Reading back each of the twelve values written by `demosaicTile`. -/
theorem demosaicTile_getD (data : List ℕ) (cols r c : ℕ) (vec : List Q) (d : Q)
    (hc2 : c + 1 < cols)
    (hlen : 3 * (r * cols + cols + c + 1) + 2 < vec.length) :
    (demosaicTile data cols r c vec).getD (3 * (r * cols + c)) d = tmpf data cols r c 1 1 ∧
    (demosaicTile data cols r c vec).getD (3 * (r * cols + c) + 1) d = fmul q025 (fadd (fadd (fadd (tmpf data cols r c 0 1) (tmpf data cols r c 1 0)) (tmpf data cols r c 1 2)) (tmpf data cols r c 2 1)) ∧
    (demosaicTile data cols r c vec).getD (3 * (r * cols + c) + 2) d = fmul q025 (fadd (fadd (fadd (tmpf data cols r c 0 0) (tmpf data cols r c 0 2)) (tmpf data cols r c 2 0)) (tmpf data cols r c 2 2)) ∧
    (demosaicTile data cols r c vec).getD (3 * (r * cols + c + 1)) d = fmul q05 (fadd (tmpf data cols r c 1 1) (tmpf data cols r c 1 3)) ∧
    (demosaicTile data cols r c vec).getD (3 * (r * cols + c + 1) + 1) d = tmpf data cols r c 1 2 ∧
    (demosaicTile data cols r c vec).getD (3 * (r * cols + c + 1) + 2) d = fmul q05 (fadd (tmpf data cols r c 0 2) (tmpf data cols r c 2 2)) ∧
    (demosaicTile data cols r c vec).getD (3 * ((r + 1) * cols + c)) d = fmul q05 (fadd (tmpf data cols r c 1 1) (tmpf data cols r c 3 1)) ∧
    (demosaicTile data cols r c vec).getD (3 * ((r + 1) * cols + c) + 1) d = tmpf data cols r c 2 1 ∧
    (demosaicTile data cols r c vec).getD (3 * ((r + 1) * cols + c) + 2) d = fmul q05 (fadd (tmpf data cols r c 2 0) (tmpf data cols r c 2 2)) ∧
    (demosaicTile data cols r c vec).getD (3 * ((r + 1) * cols + c + 1)) d = fmul q025 (fadd (fadd (fadd (tmpf data cols r c 1 1) (tmpf data cols r c 1 3)) (tmpf data cols r c 3 1)) (tmpf data cols r c 3 3)) ∧
    (demosaicTile data cols r c vec).getD (3 * ((r + 1) * cols + c + 1) + 1) d = fmul q025 (fadd (fadd (fadd (tmpf data cols r c 1 2) (tmpf data cols r c 2 1)) (tmpf data cols r c 2 3)) (tmpf data cols r c 3 2)) ∧
    (demosaicTile data cols r c vec).getD (3 * ((r + 1) * cols + c + 1) + 2) d = tmpf data cols r c 2 2 := by
  have hrc : (r + 1) * cols = r * cols + cols := by ring
  simp only [demosaicTile, hrc]
  refine ⟨?_, ?_, ?_, ?_, ?_, ?_, ?_, ?_, ?_, ?_, ?_, ?_⟩
  · rw [getD_set_ne2 _ _ _ _ _ (by omega),
      getD_set_ne2 _ _ _ _ _ (by omega),
      getD_set_ne2 _ _ _ _ _ (by omega),
      getD_set_ne2 _ _ _ _ _ (by omega),
      getD_set_ne2 _ _ _ _ _ (by omega),
      getD_set_ne2 _ _ _ _ _ (by omega),
      getD_set_ne2 _ _ _ _ _ (by omega),
      getD_set_ne2 _ _ _ _ _ (by omega),
      getD_set_ne2 _ _ _ _ _ (by omega),
      getD_set_ne2 _ _ _ _ _ (by omega),
      getD_set_ne2 _ _ _ _ _ (by omega),
      getD_set_eq_of _ _ _ _ _ (by omega) (by (try simp only [List.length_set]); omega)]
  · rw [getD_set_ne2 _ _ _ _ _ (by omega),
      getD_set_ne2 _ _ _ _ _ (by omega),
      getD_set_ne2 _ _ _ _ _ (by omega),
      getD_set_ne2 _ _ _ _ _ (by omega),
      getD_set_ne2 _ _ _ _ _ (by omega),
      getD_set_ne2 _ _ _ _ _ (by omega),
      getD_set_ne2 _ _ _ _ _ (by omega),
      getD_set_ne2 _ _ _ _ _ (by omega),
      getD_set_ne2 _ _ _ _ _ (by omega),
      getD_set_ne2 _ _ _ _ _ (by omega),
      getD_set_eq_of _ _ _ _ _ (by omega) (by (try simp only [List.length_set]); omega)]
  · rw [getD_set_ne2 _ _ _ _ _ (by omega),
      getD_set_ne2 _ _ _ _ _ (by omega),
      getD_set_ne2 _ _ _ _ _ (by omega),
      getD_set_ne2 _ _ _ _ _ (by omega),
      getD_set_ne2 _ _ _ _ _ (by omega),
      getD_set_ne2 _ _ _ _ _ (by omega),
      getD_set_ne2 _ _ _ _ _ (by omega),
      getD_set_ne2 _ _ _ _ _ (by omega),
      getD_set_ne2 _ _ _ _ _ (by omega),
      getD_set_eq_of _ _ _ _ _ (by omega) (by (try simp only [List.length_set]); omega)]
  · rw [getD_set_ne2 _ _ _ _ _ (by omega),
      getD_set_ne2 _ _ _ _ _ (by omega),
      getD_set_ne2 _ _ _ _ _ (by omega),
      getD_set_ne2 _ _ _ _ _ (by omega),
      getD_set_ne2 _ _ _ _ _ (by omega),
      getD_set_ne2 _ _ _ _ _ (by omega),
      getD_set_ne2 _ _ _ _ _ (by omega),
      getD_set_ne2 _ _ _ _ _ (by omega),
      getD_set_eq_of _ _ _ _ _ (by omega) (by (try simp only [List.length_set]); omega)]
  · rw [getD_set_ne2 _ _ _ _ _ (by omega),
      getD_set_ne2 _ _ _ _ _ (by omega),
      getD_set_ne2 _ _ _ _ _ (by omega),
      getD_set_ne2 _ _ _ _ _ (by omega),
      getD_set_ne2 _ _ _ _ _ (by omega),
      getD_set_ne2 _ _ _ _ _ (by omega),
      getD_set_ne2 _ _ _ _ _ (by omega),
      getD_set_eq_of _ _ _ _ _ (by omega) (by (try simp only [List.length_set]); omega)]
  · rw [getD_set_ne2 _ _ _ _ _ (by omega),
      getD_set_ne2 _ _ _ _ _ (by omega),
      getD_set_ne2 _ _ _ _ _ (by omega),
      getD_set_ne2 _ _ _ _ _ (by omega),
      getD_set_ne2 _ _ _ _ _ (by omega),
      getD_set_ne2 _ _ _ _ _ (by omega),
      getD_set_eq_of _ _ _ _ _ (by omega) (by (try simp only [List.length_set]); omega)]
  · rw [getD_set_ne2 _ _ _ _ _ (by omega),
      getD_set_ne2 _ _ _ _ _ (by omega),
      getD_set_ne2 _ _ _ _ _ (by omega),
      getD_set_ne2 _ _ _ _ _ (by omega),
      getD_set_ne2 _ _ _ _ _ (by omega),
      getD_set_eq_of _ _ _ _ _ (by omega) (by (try simp only [List.length_set]); omega)]
  · rw [getD_set_ne2 _ _ _ _ _ (by omega),
      getD_set_ne2 _ _ _ _ _ (by omega),
      getD_set_ne2 _ _ _ _ _ (by omega),
      getD_set_ne2 _ _ _ _ _ (by omega),
      getD_set_eq_of _ _ _ _ _ (by omega) (by (try simp only [List.length_set]); omega)]
  · rw [getD_set_ne2 _ _ _ _ _ (by omega),
      getD_set_ne2 _ _ _ _ _ (by omega),
      getD_set_ne2 _ _ _ _ _ (by omega),
      getD_set_eq_of _ _ _ _ _ (by omega) (by (try simp only [List.length_set]); omega)]
  · rw [getD_set_ne2 _ _ _ _ _ (by omega),
      getD_set_ne2 _ _ _ _ _ (by omega),
      getD_set_eq_of _ _ _ _ _ (by omega) (by (try simp only [List.length_set]); omega)]
  · rw [getD_set_ne2 _ _ _ _ _ (by omega),
      getD_set_eq_of _ _ _ _ _ (by omega) (by (try simp only [List.length_set]); omega)]
  · rw [getD_set_eq_of _ _ _ _ _ (by omega) (by (try simp only [List.length_set]); omega)]

theorem packIdx_ne (cols ρ1 γ1 ch1 ρ2 γ2 ch2 : ℕ) (hγ1 : γ1 < cols) (hγ2 : γ2 < cols)
    (hch1 : ch1 < 3) (hch2 : ch2 < 3) (hne : ¬(ρ1 = ρ2 ∧ γ1 = γ2 ∧ ch1 = ch2)) :
    ¬ (3 * (ρ1 * cols + γ1) + ch1 = 3 * (ρ2 * cols + γ2) + ch2) := by
  intro h
  have hcols : 0 < cols := by omega
  have hc3 : ch1 = ch2 := by
    have h1 : (3 * (ρ1 * cols + γ1) + ch1) % 3 = (3 * (ρ2 * cols + γ2) + ch2) % 3 := by rw [h]
    rwa [Nat.mul_add_mod, Nat.mul_add_mod, Nat.mod_eq_of_lt hch1, Nat.mod_eq_of_lt hch2] at h1
  have hpos : ρ1 * cols + γ1 = ρ2 * cols + γ2 := by omega
  have hγγ : γ1 = γ2 := by
    have h2 : (cols * ρ1 + γ1) % cols = (cols * ρ2 + γ2) % cols := by
      rw [mul_comm cols ρ1, mul_comm cols ρ2]; rw [hpos]
    rwa [Nat.mul_add_mod, Nat.mul_add_mod, Nat.mod_eq_of_lt hγ1, Nat.mod_eq_of_lt hγ2] at h2
  have hρρ : ρ1 = ρ2 := by
    have h3 : ρ1 * cols = ρ2 * cols := by omega
    exact Nat.eq_of_mul_eq_mul_right hcols h3
  exact hne ⟨hρρ, hγγ, hc3⟩

theorem packIdx_ne0 (cols ρ1 γ1 ρ2 γ2 ch2 : ℕ) (hγ1 : γ1 < cols) (hγ2 : γ2 < cols)
    (hch2 : ch2 < 3) (hne : ¬(ρ1 = ρ2 ∧ γ1 = γ2 ∧ 0 = ch2)) :
    ¬ (3 * (ρ1 * cols + γ1) = 3 * (ρ2 * cols + γ2) + ch2) := fun h =>
  packIdx_ne cols ρ1 γ1 0 ρ2 γ2 ch2 hγ1 hγ2 (by omega) hch2 hne (by omega)

theorem demosaicTile_frame (data : List ℕ) (cols r c : ℕ) (vec : List Q) (ρ γ ch : ℕ) (d : Q)
    (hγ : γ < cols) (hch : ch < 3) (hc2 : c + 1 < cols)
    (hout : (γ ≠ c ∧ γ ≠ c + 1) ∨ (ρ ≠ r ∧ ρ ≠ r + 1)) :
    (demosaicTile data cols r c vec).getD (3 * (ρ * cols + γ) + ch) d =
      vec.getD (3 * (ρ * cols + γ) + ch) d := by
  simp only [demosaicTile, Nat.add_assoc]
  rw [getD_set_ne2 _ _ _ _ _ (packIdx_ne cols (r + 1) (c + 1) 2 ρ γ ch (by omega) hγ (by omega) hch (by omega)),
    getD_set_ne2 _ _ _ _ _ (packIdx_ne cols (r + 1) (c + 1) 1 ρ γ ch (by omega) hγ (by omega) hch (by omega)),
    getD_set_ne2 _ _ _ _ _ (packIdx_ne0 cols (r + 1) (c + 1) ρ γ ch (by omega) hγ hch (by omega)),
    getD_set_ne2 _ _ _ _ _ (packIdx_ne cols (r + 1) c 2 ρ γ ch (by omega) hγ (by omega) hch (by omega)),
    getD_set_ne2 _ _ _ _ _ (packIdx_ne cols (r + 1) c 1 ρ γ ch (by omega) hγ (by omega) hch (by omega)),
    getD_set_ne2 _ _ _ _ _ (packIdx_ne0 cols (r + 1) c ρ γ ch (by omega) hγ hch (by omega)),
    getD_set_ne2 _ _ _ _ _ (packIdx_ne cols r (c + 1) 2 ρ γ ch (by omega) hγ (by omega) hch (by omega)),
    getD_set_ne2 _ _ _ _ _ (packIdx_ne cols r (c + 1) 1 ρ γ ch (by omega) hγ (by omega) hch (by omega)),
    getD_set_ne2 _ _ _ _ _ (packIdx_ne0 cols r (c + 1) ρ γ ch (by omega) hγ hch (by omega)),
    getD_set_ne2 _ _ _ _ _ (packIdx_ne cols r c 2 ρ γ ch (by omega) hγ (by omega) hch (by omega)),
    getD_set_ne2 _ _ _ _ _ (packIdx_ne cols r c 1 ρ γ ch (by omega) hγ (by omega) hch (by omega)),
    getD_set_ne2 _ _ _ _ _ (packIdx_ne0 cols r c ρ γ ch (by omega) hγ hch (by omega))]

/-- `demosaicTile` preserves the buffer length. -/
theorem demosaicTile_length (data : List ℕ) (cols r c : ℕ) (vec : List Q) :
    (demosaicTile data cols r c vec).length = vec.length := by
  simp [demosaicTile, List.length_set]

/-- `demoCols` preserves the buffer length. -/
theorem demoCols_length (data : List ℕ) (cols r : ℕ) :
    ∀ (fuel c0 : ℕ) (vec : List Q), (demoCols data cols r fuel c0 vec).length = vec.length := by
  intro fuel
  induction fuel with
  | zero => intro c0 vec; rfl
  | succ fuel ih =>
    intro c0 vec
    unfold demoCols
    split
    · rw [ih, demosaicTile_length]
    · rfl

/-- `demoRows` preserves the buffer length. -/
theorem demoRows_length (data : List ℕ) (cols rows : ℕ) :
    ∀ (fuel r0 : ℕ) (vec : List Q), (demoRows data cols rows fuel r0 vec).length = vec.length := by
  intro fuel
  induction fuel with
  | zero => intro r0 vec; rfl
  | succ fuel ih =>
    intro r0 vec
    unfold demoRows
    split
    · rw [ih, demoCols_length]
    · rfl

/-- The column loop of `demosaic_rg8` does not touch packed entries whose
column lies below the current cursor, nor entries outside rows
`{r, r+1}`. -/
theorem demoCols_frame (data : List ℕ) (cols r : ℕ) :
    ∀ (fuel c0 : ℕ) (vec : List Q) (ρ γ ch : ℕ) (d : Q),
      γ < cols → ch < 3 → (γ < c0 ∨ (ρ ≠ r ∧ ρ ≠ r + 1)) →
      (demoCols data cols r fuel c0 vec).getD (3 * (ρ * cols + γ) + ch) d =
        vec.getD (3 * (ρ * cols + γ) + ch) d := by
  intro fuel
  induction fuel with
  | zero => intros; rfl
  | succ fuel ih =>
    intro c0 vec ρ γ ch d hγ hch hcond
    unfold demoCols
    split
    case isTrue hguard =>
      rw [ih (c0 + 2) _ ρ γ ch d hγ hch (by omega)]
      exact demosaicTile_frame data cols r c0 vec ρ γ ch d hγ hch (by omega) (by omega)
    case isFalse hguard => rfl

/-- The row loop of `demosaic_rg8` does not touch packed entries whose
row lies below the current cursor. -/
theorem demoRows_frame (data : List ℕ) (cols rows : ℕ) :
    ∀ (fuel r0 : ℕ) (vec : List Q) (ρ γ ch : ℕ) (d : Q),
      γ < cols → ch < 3 → ρ < r0 →
      (demoRows data cols rows fuel r0 vec).getD (3 * (ρ * cols + γ) + ch) d =
        vec.getD (3 * (ρ * cols + γ) + ch) d := by
  intro fuel
  induction fuel with
  | zero => intros; rfl
  | succ fuel ih =>
    intro r0 vec ρ γ ch d hγ hch hρ
    unfold demoRows
    split
    case isTrue hguard =>
      rw [ih (r0 + 2) _ ρ γ ch d hγ hch (by omega)]
      exact demoCols_frame data cols r0 (cols + 4) 2 vec ρ γ ch d hγ hch (Or.inr (by omega))
    case isFalse hguard => rfl

/-- At its own pixels, the value written by `demosaicTile` does not depend
on the previous buffer contents. -/
theorem demosaicTile_indep (data : List ℕ) (cols r c : ℕ) (vec1 vec2 : List Q)
    (ρ γ ch : ℕ) (d : Q)
    (hρcase : ρ = r ∨ ρ = r + 1) (hγcase : γ = c ∨ γ = c + 1) (hch : ch < 3)
    (hc2 : c + 1 < cols)
    (hlen1 : 3 * (r * cols + cols + c + 1) + 2 < vec1.length)
    (hlen2 : 3 * (r * cols + cols + c + 1) + 2 < vec2.length) :
    (demosaicTile data cols r c vec1).getD (3 * (ρ * cols + γ) + ch) d =
      (demosaicTile data cols r c vec2).getD (3 * (ρ * cols + γ) + ch) d := by
  obtain ⟨a1, a2, a3, a4, a5, a6, a7, a8, a9, a10, a11, a12⟩ :=
    demosaicTile_getD data cols r c vec1 d hc2 hlen1
  obtain ⟨b1, b2, b3, b4, b5, b6, b7, b8, b9, b10, b11, b12⟩ :=
    demosaicTile_getD data cols r c vec2 d hc2 hlen2
  rcases hρcase with rfl | rfl <;> rcases hγcase with rfl | rfl <;>
    rcases (show ch = 0 ∨ ch = 1 ∨ ch = 2 by omega) with rfl | rfl | rfl <;>
    simp only [Nat.add_zero, ← Nat.add_assoc, a1, a2, a3, a4, a5, a6, a7, a8, a9, a10, a11, a12,
      b1, b2, b3, b4, b5, b6, b7, b8, b9, b10, b11, b12]

/-- Running the column loop computes, at each pixel of the tile with
origin `(r, c0 + 2u)`, exactly what a single `demosaicTile` at that
origin computes. -/
theorem demoCols_val (data : List ℕ) (cols r : ℕ) :
    ∀ (u fuel c0 : ℕ) (vec : List Q) (ρ γ ch : ℕ) (d : Q),
      u + 1 ≤ fuel → c0 + 2 * u < cols - 2 →
      (ρ = r ∨ ρ = r + 1) → (γ = c0 + 2 * u ∨ γ = c0 + 2 * u + 1) → ch < 3 →
      3 * (r * cols + cols + (c0 + 2 * u) + 1) + 2 < vec.length →
      (demoCols data cols r fuel c0 vec).getD (3 * (ρ * cols + γ) + ch) d =
        (demosaicTile data cols r (c0 + 2 * u) vec).getD (3 * (ρ * cols + γ) + ch) d := by
  intro u
  induction u with
  | zero =>
    intro fuel c0 vec ρ γ ch d hfuel hbound hρcase hγcase hch hlen
    obtain ⟨f, rfl⟩ : ∃ f, fuel = f + 1 := ⟨fuel - 1, by omega⟩
    simp only [Nat.mul_zero, Nat.add_zero] at hbound hγcase hlen ⊢
    unfold demoCols
    rw [if_pos (by omega)]
    rw [demoCols_frame data cols r f (c0 + 2) _ ρ γ ch d (by omega) hch (Or.inl (by omega))]
  | succ u ih =>
    intro fuel c0 vec ρ γ ch d hfuel hbound hρcase hγcase hch hlen
    obtain ⟨f, rfl⟩ : ∃ f, fuel = f + 1 := ⟨fuel - 1, by omega⟩
    unfold demoCols
    rw [if_pos (by omega)]
    have hstep : c0 + 2 + 2 * u = c0 + 2 * (u + 1) := by ring
    rw [ih f (c0 + 2) (demosaicTile data cols r c0 vec) ρ γ ch d (by omega)
      (by omega) hρcase (by omega) hch
      (by rw [demosaicTile_length]; omega)]
    rw [hstep]
    exact demosaicTile_indep data cols r (c0 + 2 * (u + 1)) _ vec ρ γ ch d hρcase
      (by omega) hch (by omega) (by rw [demosaicTile_length]; omega) (by omega)
/-- Running the row loop computes, at each pixel of the tile with origin
`(r0 + 2t, 2 + 2u)`, exactly what a single `demosaicTile` at that origin
computes on the original buffer. -/
theorem demoRows_val (data : List ℕ) (cols rows : ℕ) :
    ∀ (t fuel r0 : ℕ) (vec : List Q) (u ρ γ ch : ℕ) (d : Q),
      t + 1 ≤ fuel → r0 + 2 * t < rows - 2 → 2 + 2 * u < cols - 2 →
      (ρ = r0 + 2 * t ∨ ρ = r0 + 2 * t + 1) → (γ = 2 + 2 * u ∨ γ = 2 + 2 * u + 1) →
      ch < 3 → 3 * ((r0 + 2 * t) * cols + cols + (2 + 2 * u) + 1) + 2 < vec.length →
      (demoRows data cols rows fuel r0 vec).getD (3 * (ρ * cols + γ) + ch) d =
        (demosaicTile data cols (r0 + 2 * t) (2 + 2 * u) vec).getD
          (3 * (ρ * cols + γ) + ch) d := by
  intro t
  induction t with
  | zero =>
    intro fuel r0 vec u ρ γ ch d hfuel hrbound hcbound hρcase hγcase hch hlen
    obtain ⟨f, rfl⟩ : ∃ f, fuel = f + 1 := ⟨fuel - 1, by omega⟩
    simp only [Nat.mul_zero, Nat.add_zero] at hrbound hρcase hlen ⊢
    unfold demoRows
    rw [if_pos (by omega)]
    rw [demoRows_frame data cols rows f (r0 + 2) _ ρ γ ch d (by omega) hch (by omega)]
    exact demoCols_val data cols r0 u (cols + 4) 2 vec ρ γ ch d (by omega) (by omega)
      hρcase hγcase hch (by omega)
  | succ t ih =>
    intro fuel r0 vec u ρ γ ch d hfuel hrbound hcbound hρcase hγcase hch hlen
    obtain ⟨f, rfl⟩ : ∃ f, fuel = f + 1 := ⟨fuel - 1, by omega⟩
    unfold demoRows
    rw [if_pos (by omega)]
    have hstep : r0 + 2 + 2 * t = r0 + 2 * (t + 1) := by ring
    have hx : (r0 + 2 + 2 * t) * cols = (r0 + 2 * (t + 1)) * cols := by rw [hstep]
    rw [ih f (r0 + 2) (demoCols data cols r0 (cols + 4) 2 vec) u ρ γ ch d (by omega)
      (by omega) hcbound (by omega) hγcase hch
      (by rw [demoCols_length, hx]; omega)]
    rw [hstep]
    exact demosaicTile_indep data cols (r0 + 2 * (t + 1)) (2 + 2 * u) _ vec ρ γ ch d
      (by omega) hγcase hch (by omega)
      (by rw [demoCols_length]; omega) (by omega)
/-- `f32` addition is commutative (exact addition is, and rounding is a
function of the exact value). -/
theorem fadd_comm (x y : Q) : fadd x y = fadd y x := by
  unfold fadd
  congr 1
  simp only [Q.add]
  congr 1 <;> ring

/-- `mirror` at an interior index resolves to the two adjacent indices. -/
theorem mirror_interior (size idx : ℕ) (h1 : 1 ≤ idx) (h2 : idx < size - 1) :
    mirror size idx = some (idx - 1, idx, idx + 1) := by
  unfold mirror
  rw [if_neg (by omega), if_pos ⟨h1, h2⟩]

/-- The interpolation at the `(even, even)` pixel `(a+1, b+1)` of the
interior tile with neighborhood corner `(a, b)`, written with the
iterator's own operand order. -/
theorem interp_p00 (data : List ℕ) (rows cols a b : ℕ)
    (ha1 : 1 ≤ a) (hae : (a + 1) % 2 = 0) (hab : a + 1 < rows - 2)
    (hb1 : 1 ≤ b) (hbe : (b + 1) % 2 = 0) (hbb : b + 1 < cols - 2) :
    interpolate data rows cols (a + 1) (b + 1) =
      (tmpf data cols (a + 1) (b + 1) 1 1,
       fmul q025 (fadd (fadd (fadd (tmpf data cols (a + 1) (b + 1) 1 0)
         (tmpf data cols (a + 1) (b + 1) 0 1)) (tmpf data cols (a + 1) (b + 1) 1 2))
         (tmpf data cols (a + 1) (b + 1) 2 1)),
       fmul q025 (fadd (fadd (fadd (tmpf data cols (a + 1) (b + 1) 0 0)
         (tmpf data cols (a + 1) (b + 1) 0 2)) (tmpf data cols (a + 1) (b + 1) 2 0))
         (tmpf data cols (a + 1) (b + 1) 2 2))) := by
  have hm1 : mirror rows (a + 1) = some (a, a + 1, a + 2) := by
    rw [mirror_interior rows (a + 1) (by omega) (by omega)]
    simp only [Option.some.injEq, Prod.mk.injEq, and_true, true_and]
    omega
  have hm2 : mirror cols (b + 1) = some (b, b + 1, b + 2) := by
    rw [mirror_interior cols (b + 1) (by omega) (by omega)]
    simp only [Option.some.injEq, Prod.mk.injEq, and_true, true_and]
    omega
  unfold interpolate
  rw [hm1, hm2]
  simp only [pixelAt]
  rw [if_pos (by omega), if_pos (by omega)]
  simp only [tmpf, Nat.add_sub_cancel, Nat.add_zero]

/-- The interpolation at the `(even, odd)` pixel `(a+1, b+2)` of the
interior tile with neighborhood corner `(a, b)`. -/
theorem interp_p01 (data : List ℕ) (rows cols a b : ℕ)
    (ha1 : 1 ≤ a) (hae : (a + 1) % 2 = 0) (hab : a + 1 < rows - 2)
    (hb1 : 1 ≤ b) (hbe : (b + 1) % 2 = 0) (hbb : b + 1 < cols - 2) :
    interpolate data rows cols (a + 1) (b + 2) =
      (fmul q05 (fadd (tmpf data cols (a + 1) (b + 1) 1 1) (tmpf data cols (a + 1) (b + 1) 1 3)),
       tmpf data cols (a + 1) (b + 1) 1 2,
       fmul q05 (fadd (tmpf data cols (a + 1) (b + 1) 0 2) (tmpf data cols (a + 1) (b + 1) 2 2))) := by
  have hm1 : mirror rows (a + 1) = some (a, a + 1, a + 2) := by
    rw [mirror_interior rows (a + 1) (by omega) (by omega)]
    simp only [Option.some.injEq, Prod.mk.injEq, and_true, true_and]
    omega
  have hm2 : mirror cols (b + 2) = some (b + 1, b + 2, b + 3) := by
    rw [mirror_interior cols (b + 2) (by omega) (by omega)]
    simp only [Option.some.injEq, Prod.mk.injEq, and_true, true_and]
    omega
  unfold interpolate
  rw [hm1, hm2]
  simp only [pixelAt]
  rw [if_pos (by omega), if_neg (by omega)]
  simp only [tmpf, Nat.add_sub_cancel, Nat.add_zero]

/-- The interpolation at the `(odd, even)` pixel `(a+2, b+1)` of the
interior tile with neighborhood corner `(a, b)`. -/
theorem interp_p10 (data : List ℕ) (rows cols a b : ℕ)
    (ha1 : 1 ≤ a) (hae : (a + 1) % 2 = 0) (hab : a + 1 < rows - 2)
    (hb1 : 1 ≤ b) (hbe : (b + 1) % 2 = 0) (hbb : b + 1 < cols - 2) :
    interpolate data rows cols (a + 2) (b + 1) =
      (fmul q05 (fadd (tmpf data cols (a + 1) (b + 1) 1 1) (tmpf data cols (a + 1) (b + 1) 3 1)),
       tmpf data cols (a + 1) (b + 1) 2 1,
       fmul q05 (fadd (tmpf data cols (a + 1) (b + 1) 2 0) (tmpf data cols (a + 1) (b + 1) 2 2))) := by
  have hm1 : mirror rows (a + 2) = some (a + 1, a + 2, a + 3) := by
    rw [mirror_interior rows (a + 2) (by omega) (by omega)]
    simp only [Option.some.injEq, Prod.mk.injEq, and_true, true_and]
    omega
  have hm2 : mirror cols (b + 1) = some (b, b + 1, b + 2) := by
    rw [mirror_interior cols (b + 1) (by omega) (by omega)]
    simp only [Option.some.injEq, Prod.mk.injEq, and_true, true_and]
    omega
  unfold interpolate
  rw [hm1, hm2]
  simp only [pixelAt]
  rw [if_neg (by omega), if_pos (by omega)]
  simp only [tmpf, Nat.add_sub_cancel, Nat.add_zero]

/-- The interpolation at the `(odd, odd)` pixel `(a+2, b+2)` of the
interior tile with neighborhood corner `(a, b)`, with the iterator's
operand order in the green average. -/
theorem interp_p11 (data : List ℕ) (rows cols a b : ℕ)
    (ha1 : 1 ≤ a) (hae : (a + 1) % 2 = 0) (hab : a + 1 < rows - 2)
    (hb1 : 1 ≤ b) (hbe : (b + 1) % 2 = 0) (hbb : b + 1 < cols - 2) :
    interpolate data rows cols (a + 2) (b + 2) =
      (fmul q025 (fadd (fadd (fadd (tmpf data cols (a + 1) (b + 1) 1 1)
         (tmpf data cols (a + 1) (b + 1) 1 3)) (tmpf data cols (a + 1) (b + 1) 3 1))
         (tmpf data cols (a + 1) (b + 1) 3 3)),
       fmul q025 (fadd (fadd (fadd (tmpf data cols (a + 1) (b + 1) 1 2)
         (tmpf data cols (a + 1) (b + 1) 3 2)) (tmpf data cols (a + 1) (b + 1) 2 1))
         (tmpf data cols (a + 1) (b + 1) 2 3)),
       tmpf data cols (a + 1) (b + 1) 2 2) := by
  have hm1 : mirror rows (a + 2) = some (a + 1, a + 2, a + 3) := by
    rw [mirror_interior rows (a + 2) (by omega) (by omega)]
    simp only [Option.some.injEq, Prod.mk.injEq, and_true, true_and]
    omega
  have hm2 : mirror cols (b + 2) = some (b + 1, b + 2, b + 3) := by
    rw [mirror_interior cols (b + 2) (by omega) (by omega)]
    simp only [Option.some.injEq, Prod.mk.injEq, and_true, true_and]
    omega
  unfold interpolate
  rw [hm1, hm2]
  simp only [pixelAt]
  rw [if_neg (by omega), if_neg (by omega)]
  simp only [tmpf, Nat.add_sub_cancel, Nat.add_zero]
/-- C1 (amended): at every pixel of the interior tiles actually processed
by `demosaic_rg8`'s loops (tile origin `(a+1, b+1)` with the origin even
and inside `[2, rows-2) × [2, cols-2)`), the packed triple written by
`demosaic_rg8` coincides exactly with the lazy iterator's pixel for the
`(even,even)`, `(even,odd)` and `(odd,even)` positions and for the R and
B channels of the `(odd,odd)` position; the `(odd,odd)` green channel is
the same four-neighbor average but accumulated in a different operand
order (last conjunct), which may round differently in the last bit.
Border pixels are never written by `demosaic_rg8`. -/
theorem C1_interior_tile_agreement (data : List ℕ) (rows cols : ℕ) (vec : List Q) (a b : ℕ)
    (ha1 : 1 ≤ a) (hae : (a + 1) % 2 = 0) (hab : a + 1 < rows - 2)
    (hb1 : 1 ≤ b) (hbe : (b + 1) % 2 = 0) (hbb : b + 1 < cols - 2)
    (hlen : 3 * (rows * cols) ≤ vec.length) :
    ((Deb.new data rows cols).item ((a + 1) * cols + (b + 1)) =
      .yield ((demosaic_rg8 data cols rows vec).getD (3 * ((a + 1) * cols + (b + 1))) q0,
        (demosaic_rg8 data cols rows vec).getD (3 * ((a + 1) * cols + (b + 1)) + 1) q0,
        (demosaic_rg8 data cols rows vec).getD (3 * ((a + 1) * cols + (b + 1)) + 2) q0)) ∧
    ((Deb.new data rows cols).item ((a + 1) * cols + (b + 2)) =
      .yield ((demosaic_rg8 data cols rows vec).getD (3 * ((a + 1) * cols + (b + 2))) q0,
        (demosaic_rg8 data cols rows vec).getD (3 * ((a + 1) * cols + (b + 2)) + 1) q0,
        (demosaic_rg8 data cols rows vec).getD (3 * ((a + 1) * cols + (b + 2)) + 2) q0)) ∧
    ((Deb.new data rows cols).item ((a + 2) * cols + (b + 1)) =
      .yield ((demosaic_rg8 data cols rows vec).getD (3 * ((a + 2) * cols + (b + 1))) q0,
        (demosaic_rg8 data cols rows vec).getD (3 * ((a + 2) * cols + (b + 1)) + 1) q0,
        (demosaic_rg8 data cols rows vec).getD (3 * ((a + 2) * cols + (b + 1)) + 2) q0)) ∧
    ((Deb.new data rows cols).item ((a + 2) * cols + (b + 2)) =
      .yield ((demosaic_rg8 data cols rows vec).getD (3 * ((a + 2) * cols + (b + 2))) q0,
        fmul q025 (fadd (fadd (fadd (tmpf data cols (a + 1) (b + 1) 1 2)
          (tmpf data cols (a + 1) (b + 1) 3 2)) (tmpf data cols (a + 1) (b + 1) 2 1))
          (tmpf data cols (a + 1) (b + 1) 2 3)),
        (demosaic_rg8 data cols rows vec).getD (3 * ((a + 2) * cols + (b + 2)) + 2) q0)) ∧
    ((demosaic_rg8 data cols rows vec).getD (3 * ((a + 2) * cols + (b + 2)) + 1) q0 =
      fmul q025 (fadd (fadd (fadd (tmpf data cols (a + 1) (b + 1) 1 2)
        (tmpf data cols (a + 1) (b + 1) 2 1)) (tmpf data cols (a + 1) (b + 1) 2 3))
        (tmpf data cols (a + 1) (b + 1) 3 2))) := by
  obtain ⟨t, ht⟩ : ∃ t, a + 1 = 2 + 2 * t := ⟨(a - 1) / 2, by omega⟩
  obtain ⟨u, hu⟩ : ∃ u, b + 1 = 2 + 2 * u := ⟨(b - 1) / 2, by omega⟩
  have h2r : 2 ≤ rows := by omega
  have h2c : 2 ≤ cols := by omega
  have hmax : 3 * ((a + 1) * cols + cols + (b + 1) + 1) + 2 < vec.length := by
    have h2 : (a + 2) * cols = (a + 1) * cols + cols := by ring
    have h3 := rowmajor_lt rows cols (a + 2) (b + 2) (by omega) (by omega)
    omega
  have hF : ∀ ρ γ ch : ℕ, ∀ d : Q, (ρ = a + 1 ∨ ρ = a + 2) → (γ = b + 1 ∨ γ = b + 2) →
      ch < 3 →
      (demosaic_rg8 data cols rows vec).getD (3 * (ρ * cols + γ) + ch) d =
        (demosaicTile data cols (a + 1) (b + 1) vec).getD (3 * (ρ * cols + γ) + ch) d := by
    intro ρ γ ch d hρ hγ hch
    unfold demosaic_rg8
    have hv := demoRows_val data cols rows t (rows + 4) 2 vec u ρ γ ch d (by omega)
      (by omega) (by omega) (by omega) (by omega) hch
      (by
        have h1 : (2 + 2 * t) * cols = (a + 1) * cols := by rw [← ht]
        omega)
    rw [← ht, ← hu] at hv
    exact hv
  have hF0 : ∀ ρ γ : ℕ, ∀ d : Q, (ρ = a + 1 ∨ ρ = a + 2) → (γ = b + 1 ∨ γ = b + 2) →
      (demosaic_rg8 data cols rows vec).getD (3 * (ρ * cols + γ)) d =
        (demosaicTile data cols (a + 1) (b + 1) vec).getD (3 * (ρ * cols + γ)) d := by
    intro ρ γ d hρ hγ
    have hx := hF ρ γ 0 d hρ hγ (by omega)
    simpa only [Nat.add_zero] using hx
  obtain ⟨e1, e2, e3, e4, e5, e6, e7, e8, e9, e10, e11, e12⟩ :=
    demosaicTile_getD data cols (a + 1) (b + 1) vec q0 (by omega) hmax
  refine ⟨?_, ?_, ?_, ?_, ?_⟩
  · rw [item_rowcol data rows cols (a + 1) (b + 1) h2r h2c (by omega) (by omega),
      interp_p00 data rows cols a b ha1 hae hab hb1 hbe hbb,
      hF0 (a + 1) (b + 1) q0 (Or.inl rfl) (Or.inl rfl),
      hF (a + 1) (b + 1) 1 q0 (Or.inl rfl) (Or.inl rfl) (by omega),
      hF (a + 1) (b + 1) 2 q0 (Or.inl rfl) (Or.inl rfl) (by omega),
      e1, e2, e3,
      fadd_comm (tmpf data cols (a + 1) (b + 1) 1 0) (tmpf data cols (a + 1) (b + 1) 0 1)]
  · rw [item_rowcol data rows cols (a + 1) (b + 2) h2r h2c (by omega) (by omega),
      interp_p01 data rows cols a b ha1 hae hab hb1 hbe hbb,
      hF0 (a + 1) (b + 2) q0 (Or.inl rfl) (Or.inr rfl),
      hF (a + 1) (b + 2) 1 q0 (Or.inl rfl) (Or.inr rfl) (by omega),
      hF (a + 1) (b + 2) 2 q0 (Or.inl rfl) (Or.inr rfl) (by omega),
      show 3 * ((a + 1) * cols + (b + 2)) = 3 * ((a + 1) * cols + (b + 1) + 1) from by ring,
      e4, e5, e6]
  · rw [item_rowcol data rows cols (a + 2) (b + 1) h2r h2c (by omega) (by omega),
      interp_p10 data rows cols a b ha1 hae hab hb1 hbe hbb,
      hF0 (a + 2) (b + 1) q0 (Or.inr rfl) (Or.inl rfl),
      hF (a + 2) (b + 1) 1 q0 (Or.inr rfl) (Or.inl rfl) (by omega),
      hF (a + 2) (b + 1) 2 q0 (Or.inr rfl) (Or.inl rfl) (by omega),
      show 3 * ((a + 2) * cols + (b + 1)) = 3 * ((a + 1 + 1) * cols + (b + 1)) from by ring,
      e7, e8, e9]
  · rw [item_rowcol data rows cols (a + 2) (b + 2) h2r h2c (by omega) (by omega),
      interp_p11 data rows cols a b ha1 hae hab hb1 hbe hbb,
      hF0 (a + 2) (b + 2) q0 (Or.inr rfl) (Or.inr rfl),
      hF (a + 2) (b + 2) 2 q0 (Or.inr rfl) (Or.inr rfl) (by omega),
      show 3 * ((a + 2) * cols + (b + 2)) = 3 * ((a + 1 + 1) * cols + (b + 1) + 1) from by ring,
      e10, e12]
  · rw [hF (a + 2) (b + 2) 1 q0 (Or.inr rfl) (Or.inr rfl) (by omega),
      show 3 * ((a + 2) * cols + (b + 2)) + 1 = 3 * ((a + 1 + 1) * cols + (b + 1) + 1) + 1
        from by ring,
      e11]

set_option maxRecDepth 1000000 in
set_option maxHeartbeats 2000000 in
/-- C1 counterexample: `demosaic_rg8` never writes the border regions.
On the 2×2 mosaic `[1,2,3,4]` its tile loop does not execute at all, so a
zero-initialized output is returned unchanged, while `DebayerRG8` yields
a nonzero red value at `(0, 0)`: the two routines are not
pixel-for-pixel identical at the borders. -/
theorem C1_border_counterexample :
    demosaic_rg8 [1, 2, 3, 4] 2 2 (List.replicate 12 q0) = List.replicate 12 q0 ∧
    (List.replicate 12 q0).getD 0 q0 = ⟨0, 1⟩ ∧
    (Deb.new [1, 2, 3, 4] 2 2).item 0 =
      .yield (⟨8421505, 2147483648⟩, ⟨5263441, 536870912⟩, ⟨8421505, 536870912⟩) ∧
    (⟨8421505, 2147483648⟩ : Q) ≠ ⟨0, 1⟩ := by
  decide

/-- Witness for the amended C1 on a 6×6 mosaic at the tile with origin
`(2, 2)`. -/
theorem C1_interior_tile_agreement_witness :
    (1 ≤ 1 ∧ (1 + 1) % 2 = 0 ∧ 1 + 1 < 6 - 2 ∧ 3 * (6 * 6) ≤ (List.replicate 108 q0).length) ∧
    (((Deb.new (List.replicate 36 5) 6 6).item ((1 + 1) * 6 + (1 + 1)) =
      .yield ((demosaic_rg8 (List.replicate 36 5) 6 6 (List.replicate 108 q0)).getD
          (3 * ((1 + 1) * 6 + (1 + 1))) q0,
        (demosaic_rg8 (List.replicate 36 5) 6 6 (List.replicate 108 q0)).getD
          (3 * ((1 + 1) * 6 + (1 + 1)) + 1) q0,
        (demosaic_rg8 (List.replicate 36 5) 6 6 (List.replicate 108 q0)).getD
          (3 * ((1 + 1) * 6 + (1 + 1)) + 2) q0)) ∧
    ((Deb.new (List.replicate 36 5) 6 6).item ((1 + 1) * 6 + (1 + 2)) =
      .yield ((demosaic_rg8 (List.replicate 36 5) 6 6 (List.replicate 108 q0)).getD
          (3 * ((1 + 1) * 6 + (1 + 2))) q0,
        (demosaic_rg8 (List.replicate 36 5) 6 6 (List.replicate 108 q0)).getD
          (3 * ((1 + 1) * 6 + (1 + 2)) + 1) q0,
        (demosaic_rg8 (List.replicate 36 5) 6 6 (List.replicate 108 q0)).getD
          (3 * ((1 + 1) * 6 + (1 + 2)) + 2) q0)) ∧
    ((Deb.new (List.replicate 36 5) 6 6).item ((1 + 2) * 6 + (1 + 1)) =
      .yield ((demosaic_rg8 (List.replicate 36 5) 6 6 (List.replicate 108 q0)).getD
          (3 * ((1 + 2) * 6 + (1 + 1))) q0,
        (demosaic_rg8 (List.replicate 36 5) 6 6 (List.replicate 108 q0)).getD
          (3 * ((1 + 2) * 6 + (1 + 1)) + 1) q0,
        (demosaic_rg8 (List.replicate 36 5) 6 6 (List.replicate 108 q0)).getD
          (3 * ((1 + 2) * 6 + (1 + 1)) + 2) q0)) ∧
    ((Deb.new (List.replicate 36 5) 6 6).item ((1 + 2) * 6 + (1 + 2)) =
      .yield ((demosaic_rg8 (List.replicate 36 5) 6 6 (List.replicate 108 q0)).getD
          (3 * ((1 + 2) * 6 + (1 + 2))) q0,
        fmul q025 (fadd (fadd (fadd (tmpf (List.replicate 36 5) 6 (1 + 1) (1 + 1) 1 2)
          (tmpf (List.replicate 36 5) 6 (1 + 1) (1 + 1) 3 2))
          (tmpf (List.replicate 36 5) 6 (1 + 1) (1 + 1) 2 1))
          (tmpf (List.replicate 36 5) 6 (1 + 1) (1 + 1) 2 3)),
        (demosaic_rg8 (List.replicate 36 5) 6 6 (List.replicate 108 q0)).getD
          (3 * ((1 + 2) * 6 + (1 + 2)) + 2) q0)) ∧
    ((demosaic_rg8 (List.replicate 36 5) 6 6 (List.replicate 108 q0)).getD
        (3 * ((1 + 2) * 6 + (1 + 2)) + 1) q0 =
      fmul q025 (fadd (fadd (fadd (tmpf (List.replicate 36 5) 6 (1 + 1) (1 + 1) 1 2)
        (tmpf (List.replicate 36 5) 6 (1 + 1) (1 + 1) 2 1))
        (tmpf (List.replicate 36 5) 6 (1 + 1) (1 + 1) 2 3))
        (tmpf (List.replicate 36 5) 6 (1 + 1) (1 + 1) 3 2)))) :=
  ⟨⟨le_refl 1, by decide, by decide, by decide⟩,
   C1_interior_tile_agreement (List.replicate 36 5) 6 6 (List.replicate 108 q0) 1 1
     (by decide) (by decide) (by decide) (by decide) (by decide) (by decide) (by decide)⟩

end Cvr
